import Mathlib

/-!
Verification development for the control-flow lowering, ABI router
registration, and source-map configuration of the pyteal fork under study.

The development shallowly embeds:

* the basic-block IR and the `While`/`Break` lowering algorithms of
  `src/pyteal/ast/while_.py` and `src/pyteal/ast/break_.py`
  (blocks live in an arena addressed by `Nat` indices; the mutable
  `CompileOptions` object is threaded explicitly);
* `Router.add_method_handler` of `src/pyteal/ast/router.py`;
* the class-level source-mapping flags and the `NatalStackFrame`
  constructor of `src/pyteal/stack_frame.py`.

Code of the repository that is not under `src/` (the `ir` block primitives,
`Seq`/`Int`/`Continue` expression lowering, the ABI layer's selector hash)
is modelled from the spec; every such definition carries a doc comment
starting with `Modelled from the spec:`.

Ghost fields (`routingEvents`, `directIncomingEvents`) record which calls
registered incoming edges; they do not influence any computed block data.
-/

namespace PyTeal

/-- Compile-time errors raised by the embedded code.  `tealCompileError none`
models the source's `raise TealCompileError(...)` in `break_.py`, whose
argument is the literal Python `Ellipsis` placeholder and hence carries no
message text. -/
inductive TealErr where
  | tealCompileError (msg : Option String) : TealErr
  | tealInputError (msg : String) : TealErr
  deriving Repr, DecidableEq

/-- Modelled from the spec: an operation is an opcode plus immediate
operands (§3 Operation).  Only the integer-literal push needed by the
claims' concrete programs is represented (`int.py` is not under `src/`). -/
inductive TealOp where
  | pushInt (n : Nat) : TealOp
  deriving Repr, DecidableEq

/-- Modelled from the spec: a basic block (§3 Basic Block) — ordered
operations, a single `next` reference for an unconditional block or
`true`/`false` references for a conditional block, plus the set of
incoming-edge references.  Block references are arena indices (§9 design
note: "model as an arena of blocks addressed by index/handle").
`TealSimpleBlock([])` of the source is `{}`; `TealConditionalBlock([])`
is `{ isConditional := true }`.  (`pyteal/ir` is not under `src/`.) -/
structure TealBlock where
  isConditional : Bool := false
  ops : List TealOp := []
  nextBlock : Option Nat := none
  trueBlock : Option Nat := none
  falseBlock : Option Nat := none
  incoming : List Nat := []
  deriving Repr, DecidableEq

/-- The expression AST.  `while_.py` and `break_.py` are translated from
source; the remaining constructors are modelled from the spec (§4.2, §4.3):
`int n` is an atomic literal, `seq1`/`seq2` are the unary/binary forms of
the source's n-ary `Seq` (stitching `Seq [a, b, c]` as
`seq2 a (seq2 b c)` produces the same edges), `continueE` mirrors
`Break` per §4.3, and `whileStepE` is the post-increment variant in which
the source's `self.step` field is set. -/
inductive Expr where
  | int (n : Nat) : Expr
  | breakE : Expr
  | continueE : Expr
  | seq1 (e : Expr) : Expr
  | seq2 (e1 e2 : Expr) : Expr
  | whileE (cond doBlock : Expr) : Expr
  | whileStepE (cond doBlock step : Expr) : Expr
  deriving Repr, DecidableEq

/-- Modelled from the spec: the mutable compile context (§3 Compile
Context) threaded through lowering — the block arena, the enclosing loop
(the source stores the `While` object itself in `options.currentLoop`),
and the accumulating break/continue lists.  `routingEvents` and
`directIncomingEvents` are ghost logs of the `(block, target)` pairs passed
to routing calls (`set_next`/`set_true`/`set_false`) and to bare
`addIncoming` calls respectively. -/
structure CompileOptions where
  blocks : List TealBlock := []
  currentLoop : Option Expr := none
  breakBlocks : List Nat := []
  continueBlocks : List Nat := []
  routingEvents : List (Nat × Nat) := []
  directIncomingEvents : List (Nat × Nat) := []
  deriving Repr, DecidableEq

/-- Allocate a block in the arena, returning its index. -/
def newBlock (s : CompileOptions) (b : TealBlock) : Nat × CompileOptions :=
  (s.blocks.length, { s with blocks := s.blocks ++ [b] })

/-- Modelled from the spec: `new_block()` returns an empty unconditional
block (§4.1); the source's `TealSimpleBlock([])`. -/
def newSimpleBlock (s : CompileOptions) : Nat × CompileOptions :=
  newBlock s {}

/-- The source's `TealConditionalBlock([])`. -/
def newConditionalBlock (s : CompileOptions) : Nat × CompileOptions :=
  newBlock s { isConditional := true }

/-- Apply `f` to the block at index `i`; out-of-range indices leave the
state unchanged (no such call occurs during a well-formed lowering). -/
def updateBlock (s : CompileOptions) (i : Nat) (f : TealBlock → TealBlock) :
    CompileOptions :=
  match s.blocks[i]? with
  | some b => { s with blocks := s.blocks.set i (f b) }
  | none => s

/-- Append `b` to the incoming-edge set of block `t` (the shared
bookkeeping step of every edge registration). -/
def pushIncoming (s : CompileOptions) (t b : Nat) : CompileOptions :=
  updateBlock s t (fun blk => { blk with incoming := blk.incoming ++ [b] })

/-- Modelled from the spec: `set_next(block, target)` wires routing and
registers `block` as an incoming edge of `target` (§4.1).  The source
spells this `setNextBlock` (and `setNext` at `while_.py` lines 57/60). -/
def setNextBlock (s : CompileOptions) (b t : Nat) : CompileOptions :=
  let s := updateBlock s b (fun blk => { blk with nextBlock := some t })
  let s := pushIncoming s t b
  { s with routingEvents := s.routingEvents ++ [(b, t)] }

/-- Modelled from the spec: `set_true(block, target)` (§4.1). -/
def setTrueBlock (s : CompileOptions) (b t : Nat) : CompileOptions :=
  let s := updateBlock s b (fun blk => { blk with trueBlock := some t })
  let s := pushIncoming s t b
  { s with routingEvents := s.routingEvents ++ [(b, t)] }

/-- Modelled from the spec: `set_false(block, target)` (§4.1). -/
def setFalseBlock (s : CompileOptions) (b t : Nat) : CompileOptions :=
  let s := updateBlock s b (fun blk => { blk with falseBlock := some t })
  let s := pushIncoming s t b
  { s with routingEvents := s.routingEvents ++ [(b, t)] }

/-- Modelled from the spec: the bare `add-incoming-edge` primitive (§2
component 1), used directly by `condStart.addIncoming(doStart)` at
`while_.py` line 74. -/
def addIncoming (s : CompileOptions) (t b : Nat) : CompileOptions :=
  let s := pushIncoming s t b
  { s with directIncomingEvents := s.directIncomingEvents ++ [(b, t)] }

/-- The `next` reference of block `i` (none for an absent index). -/
def nextOf (s : CompileOptions) (i : Nat) : Option Nat :=
  match s.blocks[i]? with
  | some b => b.nextBlock
  | none => none

/-- The `true` reference of block `i`. -/
def trueOf (s : CompileOptions) (i : Nat) : Option Nat :=
  match s.blocks[i]? with
  | some b => b.trueBlock
  | none => none

/-- The `false` reference of block `i`. -/
def falseOf (s : CompileOptions) (i : Nat) : Option Nat :=
  match s.blocks[i]? with
  | some b => b.falseBlock
  | none => none

/-- The incoming-edge set of block `i`. -/
def incomingOf (s : CompileOptions) (i : Nat) : List Nat :=
  match s.blocks[i]? with
  | some b => b.incoming
  | none => []

/-- The operation list of block `i`. -/
def opsOf (s : CompileOptions) (i : Nat) : Option (List TealOp) :=
  (s.blocks[i]?).map TealBlock.ops

/-- Whether block `i` is a conditional block. -/
def isCondOf (s : CompileOptions) (i : Nat) : Option Bool :=
  (s.blocks[i]?).map TealBlock.isConditional

/-- `__str__` of the embedded expressions.  `(break)` is
`break_.py` line 25 and `(While {} {})` is `while_.py` line 84; the other
renderings are modelled from the spec (their source files are not under
`src/`).  Only the sentinel comparison at `while_.py` line 35 consumes
these strings: the constructor `While.__init__` sets
`self.doBlock = Seq([Int(0)])` and `__teal__` detects a never-supplied
body by comparing `str(self.doBlock)` with `str(Seq([Int(0)]))`. -/
def exprStr : Expr → String
  | .int n => "(Int: " ++ toString n ++ ")"
  | .breakE => "(break)"
  | .continueE => "(continue)"
  | .seq1 e => "(Seq " ++ exprStr e ++ ")"
  | .seq2 e1 e2 => "(Seq " ++ exprStr e1 ++ " " ++ exprStr e2 ++ ")"
  | .whileE c d => "(While " ++ exprStr c ++ " " ++ exprStr d ++ ")"
  | .whileStepE c d st =>
      "(While " ++ exprStr c ++ " " ++ exprStr d ++ " " ++ exprStr st ++ ")"

/-- The sentinel body installed by `While.__init__` (`while_.py` line 31). -/
def whileSentinel : Expr := Expr.seq1 (Expr.int 0)

/-- Wire `t` as the next block of every member of `l` in order
(the `for block in options.breakBlocks: block.setNext(end)` loops of
`while_.py` lines 56-60). -/
def foldWire (l : List Nat) (t : Nat) (s : CompileOptions) : CompileOptions :=
  l.foldl (fun s b => setNextBlock s b t) s

/-- Lines 52-60 of `while_.py`: restore `options.currentLoop` to the saved
`prevLoop`, create the empty exit block `end`, wire every accumulated
break block to `end`, and wire every accumulated continue block to
`doStart` (the body-start block — the source really targets `doStart`
here, not `condStart`).  Returns the index of `end`.  The break/continue
lists themselves are left exactly as the body lowering produced them: the
source resets them at lines 46-47 and never saves or restores them (its
own TODO comments at lines 40 and 48 record the omission). -/
def whileWire1 (prevLoop : Option Expr) (doStart : Nat) (s : CompileOptions) :
    Nat × CompileOptions :=
  let s0 := { s with currentLoop := prevLoop }
  let nb := newSimpleBlock s0
  let endB := nb.1
  let s1 := nb.2
  let s2 := foldWire s1.breakBlocks endB s1
  let s3 := foldWire s2.continueBlocks doStart s2
  (endB, s3)

/-- Lines 69-74 of `while_.py`: create the conditional block, wire its
true branch to `doStart` and its false branch to `end`, wire `condEnd` to
it, and finally perform the bare `condStart.addIncoming(doStart)` call. -/
def whileWire2 (condStart condEnd doStart endB : Nat) (s : CompileOptions) :
    CompileOptions :=
  let nc := newConditionalBlock s
  let branchBlock := nc.1
  let s1 := setTrueBlock nc.2 branchBlock doStart
  let s2 := setFalseBlock s1 branchBlock endB
  let s3 := setNextBlock s2 condEnd branchBlock
  let s4 := addIncoming s3 condStart doStart
  s4

/-- Expression lowering, `lower(context) -> (start, end)` (§4.2).

* `.int`: Modelled from the spec — an atomic literal produces a single
  block holding the operation that pushes its value, `start == end`
  (`int.py` is not under `src/`).
* `.seq1`/`.seq2`: Modelled from the spec (§4.2) — children lowered left
  to right, each child's end stitched to the next child's start
  (`seq.py` is not under `src/`).
* `.breakE`: translated from `Break.__teal__` (`break_.py` lines 13-22):
  two fresh empty blocks are created *before* the loop-context check; with
  no enclosing loop the raise carries the Ellipsis placeholder; otherwise
  the first block is appended to `options.breakBlocks` and the *distinct*
  pair `(start, end)` is returned.  (`break_.py` does not import
  `TealSimpleBlock` or `TealCompileError`; the embedding resolves those
  names to the classes the rest of the repository uses.)
* `.continueE`: Modelled from the spec (§4.3) — a single empty block
  appended to the continue list, returned as both start and end
  (`continue_.py` is not under `src/`).
* `.whileE`/`.whileStepE`: translated from `While.__teal__`
  (`while_.py` lines 34-78) in source order: sentinel body check; lower
  the condition (before the loop context is installed); save `prevLoop`
  and set `currentLoop := self`; reset the break/continue lists to empty
  (without saving the enclosing loop's lists); lower the body; restore
  `currentLoop` only; create `end`; wire breaks to `end` and continues to
  `doStart`; wire `doEnd` to `condStart` (or through the step expression
  when present); create and wire the conditional block; perform the bare
  `addIncoming`; return `(condStart, end)`. -/
def teal : Expr → CompileOptions → Except TealErr ((Nat × Nat) × CompileOptions)
  | .int n, s =>
      let p := newBlock s { ops := [TealOp.pushInt n] }
      .ok ((p.1, p.1), p.2)
  | .seq1 e, s => teal e s
  | .seq2 e1 e2, s => do
      let ((start1, end1), s) ← teal e1 s
      let ((start2, end2), s) ← teal e2 s
      let s := setNextBlock s end1 start2
      .ok ((start1, end2), s)
  | .breakE, s =>
      let p1 := newSimpleBlock s
      let start := p1.1
      let p2 := newSimpleBlock p1.2
      let endB := p2.1
      let s2 := p2.2
      if s2.currentLoop.isNone then
        .error (.tealCompileError none)
      else
        .ok ((start, endB), { s2 with breakBlocks := s2.breakBlocks ++ [start] })
  | .continueE, s =>
      if s.currentLoop.isNone then
        .error (.tealCompileError (some "continue is only allowed in a loop"))
      else
        let p := newSimpleBlock s
        .ok ((p.1, p.1), { p.2 with continueBlocks := p.2.continueBlocks ++ [p.1] })
  | .whileE cond doBlock, s =>
      if exprStr doBlock == exprStr whileSentinel then
        .error (.tealCompileError (some "While expression must have a doBlock"))
      else do
        let ((condStart, condEnd), s) ← teal cond s
        let prevLoop := s.currentLoop
        let s := { s with currentLoop := some (.whileE cond doBlock),
                          breakBlocks := [], continueBlocks := [] }
        let ((doStart, doEnd), s) ← teal doBlock s
        let w1 := whileWire1 prevLoop doStart s
        let endB := w1.1
        let s := setNextBlock w1.2 doEnd condStart
        let s := whileWire2 condStart condEnd doStart endB s
        .ok ((condStart, endB), s)
  | .whileStepE cond doBlock step, s =>
      if exprStr doBlock == exprStr whileSentinel then
        .error (.tealCompileError (some "While expression must have a doBlock"))
      else do
        let ((condStart, condEnd), s) ← teal cond s
        let prevLoop := s.currentLoop
        let s := { s with currentLoop := some (.whileStepE cond doBlock step),
                          breakBlocks := [], continueBlocks := [] }
        let ((doStart, doEnd), s) ← teal doBlock s
        let w1 := whileWire1 prevLoop doStart s
        let endB := w1.1
        let ((stepStart, stepEnd), s) ← teal step w1.2
        let s := setNextBlock s stepEnd condStart
        let s := setNextBlock s doEnd stepStart
        let s := whileWire2 condStart condEnd doStart endB s
        .ok ((condStart, endB), s)

/-! ### Well-formedness invariants of the lowering state -/

/-- The break/continue accumulator lists refer to allocated blocks and are
disjoint. -/
def ListsWF (s : CompileOptions) : Prop :=
  (∀ b ∈ s.breakBlocks, b < s.blocks.length) ∧
  (∀ b ∈ s.continueBlocks, b < s.blocks.length) ∧
  (∀ b ∈ s.breakBlocks, b ∉ s.continueBlocks)

/-- The ghost event logs describe the incoming-edge sets exactly: every
logged target is allocated, and a block `B` is an incoming edge of `T`
precisely when some routing call or some bare add-incoming call was made
with that pair. -/
def EventsWF (s : CompileOptions) : Prop :=
  (∀ p ∈ s.routingEvents, p.2 < s.blocks.length) ∧
  (∀ p ∈ s.directIncomingEvents, p.2 < s.blocks.length) ∧
  (∀ B T : Nat, B ∈ incomingOf s T ↔
     ((B, T) ∈ s.routingEvents ∨ (B, T) ∈ s.directIncomingEvents))

/-- Full state invariant preserved by lowering. -/
def WFFull (s : CompileOptions) : Prop := ListsWF s ∧ EventsWF s

/-- Postcondition of a successful lowering `teal e s = .ok ((st, en), s')`:
the arena only grows, the produced start/end blocks are fresh, the
accumulator lists gain only fresh blocks, the end block is never a break
block, blocks existing on entry are left untouched, the enclosing loop
reference is restored, and well-formedness is preserved. -/
structure TealPost (s : CompileOptions) (st en : Nat) (s' : CompileOptions) : Prop where
  growth : s.blocks.length ≤ s'.blocks.length
  st_lb : s.blocks.length ≤ st
  st_ub : st < s'.blocks.length
  en_lb : s.blocks.length ≤ en
  en_ub : en < s'.blocks.length
  breaks_mem : ∀ b ∈ s'.breakBlocks, b ∈ s.breakBlocks ∨ s.blocks.length ≤ b
  conts_mem : ∀ b ∈ s'.continueBlocks, b ∈ s.continueBlocks ∨ s.blocks.length ≤ b
  en_not_break : en ∉ s'.breakBlocks
  frame : ∀ x, x < s.blocks.length → s'.blocks[x]? = s.blocks[x]?
  loop_restored : s'.currentLoop = s.currentLoop
  wf : WFFull s'

/-! ### Router (`src/pyteal/ast/router.py`) -/

/-- `CallConfig` (`router.py` lines 35-52): NEVER / CALL / CREATE / ALL. -/
inductive CallConfig where
  | NEVER : CallConfig
  | CALL : CallConfig
  | CREATE : CallConfig
  | ALL : CallConfig
  deriving Repr, DecidableEq

/-- `MethodConfig` (`router.py` lines 71-85): one `CallConfig` per
on-completion case, each defaulting to `NEVER`. -/
structure MethodConfig where
  no_op : CallConfig := .NEVER
  opt_in : CallConfig := .NEVER
  close_out : CallConfig := .NEVER
  clear_state : CallConfig := .NEVER
  update_application : CallConfig := .NEVER
  delete_application : CallConfig := .NEVER
  deriving Repr, DecidableEq

/-- `MethodConfig.is_never` (`router.py` lines 96-97): all six fields,
in `astuple` order, equal `NEVER`. -/
def MethodConfig.is_never (mc : MethodConfig) : Bool :=
  mc.no_op == .NEVER && mc.opt_in == .NEVER && mc.close_out == .NEVER &&
    mc.clear_state == .NEVER && mc.update_application == .NEVER &&
    mc.delete_application == .NEVER

/-- Result of `MethodConfig.approval_cond` (`router.py` lines 99-125): the
Python `int` 0 when every on-completion config is `NEVER`, the `int` 1
when every one is `ALL`, otherwise an `Or` expression; the expression
payload is represented by the list of (on-completion name, config) pairs
whose config is not `NEVER` (the `Txn`/`OnComplete` sub-expressions live
outside `src/`). -/
inductive ApprovalCondResult where
  | zero : ApprovalCondResult
  | one : ApprovalCondResult
  | expr (conds : List (String × CallConfig)) : ApprovalCondResult
  deriving Repr, DecidableEq

/-- The `(config, on-completion)` pair list of `approval_cond`
(`router.py` lines 100-106), in source order. -/
def MethodConfig.ocPairs (mc : MethodConfig) : List (String × CallConfig) :=
  [("NoOp", mc.no_op), ("OptIn", mc.opt_in), ("CloseOut", mc.close_out),
   ("UpdateApplication", mc.update_application),
   ("DeleteApplication", mc.delete_application)]

/-- `MethodConfig.approval_cond` (`router.py` lines 99-125). -/
def MethodConfig.approval_cond (mc : MethodConfig) : ApprovalCondResult :=
  if mc.ocPairs.all (fun p => p.2 == .NEVER) then .zero
  else if mc.ocPairs.all (fun p => p.2 == .ALL) then .one
  else .expr (mc.ocPairs.filter (fun p => !(p.2 == .NEVER)))

/-- A registered ARC-4 method entry (the SDK `Method` object returned by
`method_call.method_spec()`, with `desc` overridden when a description is
passed; the ABI layer is outside `src/`, so the spec payload is opaque). -/
structure Method where
  sig : String
  desc : Option String := none
  deriving Repr, DecidableEq

/-- `CondNode` of the approval-program AST builder (`router.py` line 261):
the walk-in condition compares the first application argument with the
method signature's selector, and the branch either asserts the
config-derived condition first (`has_assert`) or runs the wrapped handler
directly (`add_method_to_ast`, lines 472-487). -/
structure CondNode where
  walk_in_sig : String
  has_assert : Bool
  deriving Repr, DecidableEq

/-- `ASTBuilder.add_method_to_ast` (`router.py` lines 472-487): an `Expr`
condition appends a `CondNode` with an `Assert`, the int `1` appends one
without, and the int `0` appends nothing. -/
def add_method_to_ast (ast : List CondNode) (method_signature : String)
    (cond : ApprovalCondResult) : List CondNode :=
  match cond with
  | .expr _ => ast ++ [{ walk_in_sig := method_signature, has_assert := true }]
  | .one => ast ++ [{ walk_in_sig := method_signature, has_assert := false }]
  | .zero => ast

/-- The `method_call` argument of `add_method_handler`.
`is_abi_return_subroutine` is the source's `isinstance(method_call,
ABIReturnSubroutine)` test; `method_signature` is the result of
`method_call.method_signature(overriding_name)` and `spec_desc` the `desc`
field of `method_call.method_spec()` (both from the ABI layer, which is
outside `src/`; modelled from the spec as opaque inputs). -/
structure HandlerArg where
  is_abi_return_subroutine : Bool := true
  method_signature : String := ""
  spec_desc : Option String := none
  deriving Repr, DecidableEq

/-- The observable `Router` state touched by `add_method_handler`
(`router.py` lines 598-600 and 270): the methods list, the two
signature/selector maps (Python dicts, embedded as insertion-ordered
association lists), and `approval_ast.conditions_n_branches`. -/
structure Router where
  methods : List Method := []
  method_sig_to_selector : List (String × Nat) := []
  method_selector_to_sig : List (Nat × String) := []
  conditions_n_branches : List CondNode := []
  deriving Repr, DecidableEq

/-- `Router.add_method_handler` (`router.py` lines 613-666), translated in
source order.  `checksum4` stands for
`encoding.checksum(bytes(sig, "utf-8"))[:4]` (the `algosdk` hash, outside
`src/`; modelled from the spec as an arbitrary selector function).  The
result pairs the success/failure outcome with the router state as it is
when the call returns or the exception escapes, so that a raise occurring
after a mutation would be visible as a changed state. -/
def Router.add_method_handler (checksum4 : String → Nat) (r : Router)
    (method_call : HandlerArg) (method_config : Option MethodConfig)
    (description : Option String) : Except TealErr Unit × Router :=
  if !method_call.is_abi_return_subroutine then
    (.error (.tealInputError "for adding method handler, must be ABIReturnSubroutine"), r)
  else
    let method_signature := method_call.method_signature
    let mconfig := method_config.getD { no_op := .CALL }
    if mconfig.is_never then
      (.error (.tealInputError
        ("registered method " ++ method_signature ++ " is never executed")), r)
    else
      let method_selector := checksum4 method_signature
      if (r.method_sig_to_selector.lookup method_signature).isSome then
        (.error (.tealInputError
          ("re-registering method " ++ method_signature ++ " detected")), r)
      else
        match r.method_selector_to_sig.lookup method_selector with
        | some prior_sig =>
            (.error (.tealInputError
              ("re-registering method " ++ method_signature ++
                " has hash collision with " ++ prior_sig)), r)
        | none =>
            let meth : Method :=
              { sig := method_signature,
                desc := match description with
                        | some d => some d
                        | none => method_call.spec_desc }
            let r := { r with methods := r.methods ++ [meth] }
            let r := { r with
              method_sig_to_selector :=
                r.method_sig_to_selector ++ [(method_signature, method_selector)],
              method_selector_to_sig :=
                r.method_selector_to_sig ++ [(method_selector, method_signature)] }
            let method_approval_cond := mconfig.approval_cond
            let r := { r with
              conditions_n_branches :=
                add_method_to_ast r.conditions_n_branches method_signature
                  method_approval_cond }
            (.ok (), r)

/-! ### Source-map configuration state (`src/pyteal/stack_frame.py`) -/

/-- Result of parsing the `pyteal-source-mapper` section of the
`pyteal.ini` file read from the process working directory; `none` models
any `ConfigParser` failure (missing file, missing section or key). -/
structure PytealIni where
  enabled : Bool
  debug : Bool
  deriving Repr, DecidableEq

/-- `_sourcmapping_is_off` (`stack_frame.py` lines 166-177): `not enabled`
on a successful read, `True` on any exception. -/
def sourcmapping_is_off_of (ini : Option PytealIni) : Bool :=
  match ini with
  | some cfg => !cfg.enabled
  | none => true

/-- `_debug_frames` (`stack_frame.py` lines 180-196): the `debug` key on a
successful read, `False` on any exception. -/
def debug_frames_of (ini : Option PytealIni) : Bool :=
  match ini with
  | some cfg => cfg.debug
  | none => false

/-- The class-level mutable state of `NatalStackFrame`
(`stack_frame.py` lines 229-231): `_no_stackframes` and `_debug` are
initialised by reading the file system at class-creation time and are
mutated at runtime by `sourcemapping_off_context` and by
`sourcemapping_is_off(_force_refresh=True)`. -/
structure NatalClassState where
  no_stackframes : Bool
  debug : Bool
  keep_all_debugging : Bool := false
  deriving Repr, DecidableEq

/-- Class-attribute initialisation of `NatalStackFrame`
(`stack_frame.py` lines 229-230). -/
def natalClassInit (ini : Option PytealIni) : NatalClassState :=
  { no_stackframes := sourcmapping_is_off_of ini,
    debug := debug_frames_of ini }

/-- Entry of the `sourcemapping_off_context` context manager
(`stack_frame.py` lines 199-212): sets the class flags for the duration of
the context. -/
def sourcemapping_off_enter (g : NatalClassState) : NatalClassState :=
  { g with no_stackframes := true, debug := false }

/-- `NatalStackFrame.sourcemapping_is_off` (`stack_frame.py` lines
233-247): with `_force_refresh` the class flag is re-read from the file
system before being returned. -/
def sourcemapping_is_off (g : NatalClassState) (ini : Option PytealIni)
    (force_refresh : Bool) : Bool × NatalClassState :=
  let g := if force_refresh then { g with no_stackframes := sourcmapping_is_off_of ini } else g
  (g.no_stackframes, g)

/-- One `inspect.FrameInfo` of the Python call stack at the moment an
`Expr` is constructed: the frame's filename and its source code context
lines. -/
structure FrameInfo where
  filename : String
  code_context : List String := []
  deriving Repr, DecidableEq

/-- Whether `p` is an initial segment of `l`. -/
def isPrefixList (p l : List Char) : Bool :=
  match p, l with
  | [], _ => true
  | _ :: _, [] => false
  | a :: as, b :: bs => a == b && isPrefixList as bs

/-- Whether `sub` occurs contiguously inside `l`. -/
def isInfixList (sub l : List Char) : Bool :=
  match l with
  | [] => sub.isEmpty
  | _ :: rest => isPrefixList sub l || isInfixList sub rest

/-- Python `sub in s` substring containment over the embedded strings. -/
def containsSub (s sub : String) : Bool :=
  isInfixList sub.toList s.toList

/-- Whitespace tokenisation of Python `str.split()` (splitting on spaces,
dropping empty tokens), over character lists; `acc` holds the current
token reversed. -/
def splitWordsAux : List Char → List Char → List (List Char)
  | [], acc => if acc.isEmpty then [] else [acc.reverse]
  | c :: rest, acc =>
      if c == ' ' then
        if acc.isEmpty then splitWordsAux rest []
        else acc.reverse :: splitWordsAux rest []
      else splitWordsAux rest (c :: acc)

/-- The whitespace-separated words of a string. -/
def splitWords (s : String) : List (List Char) :=
  splitWordsAux s.toList []

/-- `StackFrame._frame_info_not_py_crud` (`stack_frame.py` lines 150-152):
keep a frame when it has code context or its filename does not start with
`<`. -/
def frame_info_not_py_crud (f : FrameInfo) : Bool :=
  !f.code_context.isEmpty || !(isPrefixList "<".toList f.filename.toList)

/-- `StackFrame._internal_paths` (`stack_frame.py` lines 79-95). -/
def internal_paths : List String :=
  ["beaker/__init__.py", "beaker/application.py", "beaker/consts.py",
   "beaker/decorators.py", "beaker/state.py", "pyteal/__init__.py",
   "pyteal/ast", "pyteal/compiler", "pyteal/ir", "pyteal/pragma",
   "pyteal/stack_frame.py", "tests/abi_roundtrip.py", "tests/blackbox.py",
   "tests/compile_asserts.py", "tests/mock_version.py"]

/-- `StackFrame._frame_info_is_pyteal` (`stack_frame.py` lines 128-130):
the alternation regex built from `_internal_paths` searches the filename;
embedded as substring containment of some pattern (the patterns contain no
regex metacharacters other than `.`, embedded literally). -/
def frame_info_is_pyteal (f : FrameInfo) : Bool :=
  internal_paths.any (fun p => containsSub f.filename p)

/-- `StackFrame._frame_info_is_pyteal_import` (`stack_frame.py` lines
135-141): the whitespace-split words of the joined code context contain
both `import` and `pyteal`. -/
def frame_info_is_pyteal_import (f : FrameInfo) : Bool :=
  let code := splitWords (String.join f.code_context)
  code.contains "import".toList && code.contains "pyteal".toList

/-- `StackFrame._frame_info_compiler_generated` (`stack_frame.py` lines
160-164): `none` when there is no code context, otherwise whether
`# T2PT` occurs in the joined context. -/
def frame_info_compiler_generated (f : FrameInfo) : Option Bool :=
  if f.code_context.isEmpty then none
  else some (containsSub (String.join f.code_context) "# T2PT")

/-- The `while i < len(frame_infos) and _frame_info_is_pyteal(...)` fast
forward of `NatalStackFrame.__init__` step 4, recursing over the frames
after index `i`. -/
def fastForwardAux (g : List FrameInfo) (i : Nat) : Nat :=
  match g with
  | [] => i
  | fi :: rest => if frame_info_is_pyteal fi then fastForwardAux rest (i + 1) else i

/-- Step 4 of `NatalStackFrame.__init__`: first index `≥ i` whose frame is
not pyteal-internal (or the length when all are). -/
def fastForward (l : List FrameInfo) (i : Nat) : Nat :=
  fastForwardAux (l.drop i) i

/-- Step 5's backward search (`for i in range(last_keep_idx - 1, -1, -1)`)
for a compiler-generated `# T2PT*` marker. -/
def backSearch (l : List FrameInfo) : Nat → Option Nat
  | 0 => none
  | j + 1 =>
      match l[j]? with
      | some fi =>
          if (frame_info_compiler_generated fi).getD false then some j
          else backSearch l j
      | none => backSearch l j

/-- `NatalStackFrame.__init__` (`stack_frame.py` lines 249-306), embedded
over an explicit snapshot of the Python call stack.  Returns the list of
kept frames (`self._frames`; the AST node recovered by the external
`executing` package is dropped, and `_init_or_drop` keeps exactly the
non-py-crud frames).  `none` models the `IndexError` raised when
`frame_infos[last_keep_idx]` is out of range. -/
def natalStackFrameInit (cls : NatalClassState) (full_stack : List FrameInfo) :
    Option (List FrameInfo) :=
  if cls.no_stackframes then some []
  else
    let frame_infos := full_stack.filter frame_info_not_py_crud
    if cls.keep_all_debugging || frame_infos.length ≤ 1 then
      some (frame_infos.filter frame_info_not_py_crud)
    else
      let last_keep_idx := fastForward frame_infos 2
      match frame_infos[last_keep_idx]? with
      | none => none
      | some fi =>
          let last_keep_idx :=
            if frame_info_is_pyteal_import fi then
              match backSearch frame_infos last_keep_idx with
              | some j => j
              | none => last_keep_idx
            else last_keep_idx
          some (((frame_infos.drop last_keep_idx).take 1).filter
            frame_info_not_py_crud)

/-- The final compile state of a lowering result (the empty state for a
failed lowering). -/
def stateOf (r : Except TealErr ((Nat × Nat) × CompileOptions)) : CompileOptions :=
  match r with
  | .ok (_, s) => s
  | .error _ => {}

/-- The `(start, end)` pair of a lowering result. -/
def resultOf (r : Except TealErr ((Nat × Nat) × CompileOptions)) : Option (Nat × Nat) :=
  match r with
  | .ok (p, _) => some p
  | .error _ => none

/-! ## Lemmas about the block primitives -/

theorem getElem?_updateBlock (s : CompileOptions) (i : Nat) (f : TealBlock → TealBlock)
    (j : Nat) :
    (updateBlock s i f).blocks[j]? = if j = i then (s.blocks[j]?).map f else s.blocks[j]? := by
  unfold updateBlock
  cases h : s.blocks[i]? with
  | none =>
      by_cases hj : j = i
      · subst hj; simp [h]
      · simp [hj]
  | some b =>
      have hlt : i < s.blocks.length := by
        by_contra hh
        rw [List.getElem?_eq_none (Nat.le_of_not_lt hh)] at h
        exact Option.noConfusion h
      by_cases hj : j = i
      · subst hj; simp [List.getElem?_set, hlt, h]
      · simp [List.getElem?_set, Ne.symm hj, hj]

@[simp] theorem updateBlock_blocks_length (s : CompileOptions) (i : Nat)
    (f : TealBlock → TealBlock) :
    (updateBlock s i f).blocks.length = s.blocks.length := by
  unfold updateBlock; cases s.blocks[i]? <;> simp

@[simp] theorem updateBlock_breakBlocks (s : CompileOptions) (i : Nat)
    (f : TealBlock → TealBlock) :
    (updateBlock s i f).breakBlocks = s.breakBlocks := by
  unfold updateBlock; cases s.blocks[i]? <;> rfl

@[simp] theorem updateBlock_continueBlocks (s : CompileOptions) (i : Nat)
    (f : TealBlock → TealBlock) :
    (updateBlock s i f).continueBlocks = s.continueBlocks := by
  unfold updateBlock; cases s.blocks[i]? <;> rfl

@[simp] theorem updateBlock_currentLoop (s : CompileOptions) (i : Nat)
    (f : TealBlock → TealBlock) :
    (updateBlock s i f).currentLoop = s.currentLoop := by
  unfold updateBlock; cases s.blocks[i]? <;> rfl

@[simp] theorem updateBlock_routingEvents (s : CompileOptions) (i : Nat)
    (f : TealBlock → TealBlock) :
    (updateBlock s i f).routingEvents = s.routingEvents := by
  unfold updateBlock; cases s.blocks[i]? <;> rfl

@[simp] theorem updateBlock_directIncomingEvents (s : CompileOptions) (i : Nat)
    (f : TealBlock → TealBlock) :
    (updateBlock s i f).directIncomingEvents = s.directIncomingEvents := by
  unfold updateBlock; cases s.blocks[i]? <;> rfl

@[simp] theorem nextOf_pushIncoming (s : CompileOptions) (t b x : Nat) :
    nextOf (pushIncoming s t b) x = nextOf s x := by
  unfold nextOf pushIncoming
  rw [getElem?_updateBlock]
  by_cases hx : x = t
  · subst hx; simp only [if_pos rfl]; cases s.blocks[x]? <;> rfl
  · simp [hx]

@[simp] theorem trueOf_pushIncoming (s : CompileOptions) (t b x : Nat) :
    trueOf (pushIncoming s t b) x = trueOf s x := by
  unfold trueOf pushIncoming
  rw [getElem?_updateBlock]
  by_cases hx : x = t
  · subst hx; simp only [if_pos rfl]; cases s.blocks[x]? <;> rfl
  · simp [hx]

@[simp] theorem falseOf_pushIncoming (s : CompileOptions) (t b x : Nat) :
    falseOf (pushIncoming s t b) x = falseOf s x := by
  unfold falseOf pushIncoming
  rw [getElem?_updateBlock]
  by_cases hx : x = t
  · subst hx; simp only [if_pos rfl]; cases s.blocks[x]? <;> rfl
  · simp [hx]

theorem incomingOf_pushIncoming_self (s : CompileOptions) (t b : Nat)
    (h : t < s.blocks.length) :
    incomingOf (pushIncoming s t b) t = incomingOf s t ++ [b] := by
  unfold incomingOf pushIncoming
  rw [getElem?_updateBlock]
  simp only [if_pos rfl]
  cases hb : s.blocks[t]? with
  | none =>
      have hsome := List.getElem?_eq_getElem (l := s.blocks) h
      rw [hb] at hsome
      exact Option.noConfusion hsome
  | some blk => rfl

theorem incomingOf_pushIncoming_ne (s : CompileOptions) (t b x : Nat) (hx : x ≠ t) :
    incomingOf (pushIncoming s t b) x = incomingOf s x := by
  unfold incomingOf pushIncoming
  rw [getElem?_updateBlock]
  simp [hx]

theorem nextOf_updateBlock_preserve (s : CompileOptions) (i : Nat)
    (f : TealBlock → TealBlock) (x : Nat)
    (hf : ∀ blk, (f blk).nextBlock = blk.nextBlock) :
    nextOf (updateBlock s i f) x = nextOf s x := by
  unfold nextOf
  rw [getElem?_updateBlock]
  by_cases hx : x = i
  · subst hx; simp only [if_pos rfl]; cases s.blocks[x]? with
    | none => rfl
    | some blk => simp [hf]
  · simp [hx]

theorem trueOf_updateBlock_preserve (s : CompileOptions) (i : Nat)
    (f : TealBlock → TealBlock) (x : Nat)
    (hf : ∀ blk, (f blk).trueBlock = blk.trueBlock) :
    trueOf (updateBlock s i f) x = trueOf s x := by
  unfold trueOf
  rw [getElem?_updateBlock]
  by_cases hx : x = i
  · subst hx; simp only [if_pos rfl]; cases s.blocks[x]? with
    | none => rfl
    | some blk => simp [hf]
  · simp [hx]

theorem falseOf_updateBlock_preserve (s : CompileOptions) (i : Nat)
    (f : TealBlock → TealBlock) (x : Nat)
    (hf : ∀ blk, (f blk).falseBlock = blk.falseBlock) :
    falseOf (updateBlock s i f) x = falseOf s x := by
  unfold falseOf
  rw [getElem?_updateBlock]
  by_cases hx : x = i
  · subst hx; simp only [if_pos rfl]; cases s.blocks[x]? with
    | none => rfl
    | some blk => simp [hf]
  · simp [hx]

theorem incomingOf_updateBlock_preserve (s : CompileOptions) (i : Nat)
    (f : TealBlock → TealBlock) (x : Nat)
    (hf : ∀ blk, (f blk).incoming = blk.incoming) :
    incomingOf (updateBlock s i f) x = incomingOf s x := by
  unfold incomingOf
  rw [getElem?_updateBlock]
  by_cases hx : x = i
  · subst hx; simp only [if_pos rfl]; cases s.blocks[x]? with
    | none => rfl
    | some blk => simp [hf]
  · simp [hx]

@[simp] theorem setNextBlock_blocks_length (s : CompileOptions) (b t : Nat) :
    (setNextBlock s b t).blocks.length = s.blocks.length := by
  simp [setNextBlock, pushIncoming]

@[simp] theorem setNextBlock_breakBlocks (s : CompileOptions) (b t : Nat) :
    (setNextBlock s b t).breakBlocks = s.breakBlocks := by
  simp [setNextBlock, pushIncoming]

@[simp] theorem setNextBlock_continueBlocks (s : CompileOptions) (b t : Nat) :
    (setNextBlock s b t).continueBlocks = s.continueBlocks := by
  simp [setNextBlock, pushIncoming]

@[simp] theorem setNextBlock_currentLoop (s : CompileOptions) (b t : Nat) :
    (setNextBlock s b t).currentLoop = s.currentLoop := by
  simp [setNextBlock, pushIncoming]

@[simp] theorem setNextBlock_routingEvents (s : CompileOptions) (b t : Nat) :
    (setNextBlock s b t).routingEvents = s.routingEvents ++ [(b, t)] := by
  simp [setNextBlock, pushIncoming]

@[simp] theorem setNextBlock_directIncomingEvents (s : CompileOptions) (b t : Nat) :
    (setNextBlock s b t).directIncomingEvents = s.directIncomingEvents := by
  simp [setNextBlock, pushIncoming]

theorem nextOf_setNextBlock_self (s : CompileOptions) (b t : Nat)
    (h : b < s.blocks.length) :
    nextOf (setNextBlock s b t) b = some t := by
  show nextOf (pushIncoming (updateBlock s b _) t b) b = some t
  rw [nextOf_pushIncoming]
  unfold nextOf
  rw [getElem?_updateBlock]
  simp only [if_pos rfl]
  have hsome := List.getElem?_eq_getElem (l := s.blocks) h
  rw [hsome]
  rfl

theorem nextOf_setNextBlock_ne (s : CompileOptions) (b t x : Nat) (hx : x ≠ b) :
    nextOf (setNextBlock s b t) x = nextOf s x := by
  show nextOf (pushIncoming (updateBlock s b _) t b) x = nextOf s x
  rw [nextOf_pushIncoming]
  unfold nextOf
  rw [getElem?_updateBlock]
  simp [hx]

@[simp] theorem trueOf_setNextBlock (s : CompileOptions) (b t x : Nat) :
    trueOf (setNextBlock s b t) x = trueOf s x := by
  show trueOf (pushIncoming (updateBlock s b _) t b) x = trueOf s x
  rw [trueOf_pushIncoming, trueOf_updateBlock_preserve]
  intro blk; rfl

@[simp] theorem falseOf_setNextBlock (s : CompileOptions) (b t x : Nat) :
    falseOf (setNextBlock s b t) x = falseOf s x := by
  show falseOf (pushIncoming (updateBlock s b _) t b) x = falseOf s x
  rw [falseOf_pushIncoming, falseOf_updateBlock_preserve]
  intro blk; rfl

theorem incomingOf_setNextBlock_self (s : CompileOptions) (b t : Nat)
    (h : t < s.blocks.length) :
    incomingOf (setNextBlock s b t) t = incomingOf s t ++ [b] := by
  show incomingOf (pushIncoming (updateBlock s b _) t b) t = incomingOf s t ++ [b]
  rw [incomingOf_pushIncoming_self _ _ _ (by simpa using h),
    incomingOf_updateBlock_preserve]
  intro blk; rfl

theorem incomingOf_setNextBlock_ne (s : CompileOptions) (b t x : Nat) (hx : x ≠ t) :
    incomingOf (setNextBlock s b t) x = incomingOf s x := by
  show incomingOf (pushIncoming (updateBlock s b _) t b) x = incomingOf s x
  rw [incomingOf_pushIncoming_ne _ _ _ _ hx, incomingOf_updateBlock_preserve]
  intro blk; rfl

@[simp] theorem setTrueBlock_blocks_length (s : CompileOptions) (b t : Nat) :
    (setTrueBlock s b t).blocks.length = s.blocks.length := by
  simp [setTrueBlock, pushIncoming]

@[simp] theorem setTrueBlock_breakBlocks (s : CompileOptions) (b t : Nat) :
    (setTrueBlock s b t).breakBlocks = s.breakBlocks := by
  simp [setTrueBlock, pushIncoming]

@[simp] theorem setTrueBlock_continueBlocks (s : CompileOptions) (b t : Nat) :
    (setTrueBlock s b t).continueBlocks = s.continueBlocks := by
  simp [setTrueBlock, pushIncoming]

@[simp] theorem setTrueBlock_currentLoop (s : CompileOptions) (b t : Nat) :
    (setTrueBlock s b t).currentLoop = s.currentLoop := by
  simp [setTrueBlock, pushIncoming]

@[simp] theorem setTrueBlock_routingEvents (s : CompileOptions) (b t : Nat) :
    (setTrueBlock s b t).routingEvents = s.routingEvents ++ [(b, t)] := by
  simp [setTrueBlock, pushIncoming]

@[simp] theorem setTrueBlock_directIncomingEvents (s : CompileOptions) (b t : Nat) :
    (setTrueBlock s b t).directIncomingEvents = s.directIncomingEvents := by
  simp [setTrueBlock, pushIncoming]

theorem trueOf_setTrueBlock_self (s : CompileOptions) (b t : Nat)
    (h : b < s.blocks.length) :
    trueOf (setTrueBlock s b t) b = some t := by
  show trueOf (pushIncoming (updateBlock s b _) t b) b = some t
  rw [trueOf_pushIncoming]
  unfold trueOf
  rw [getElem?_updateBlock]
  simp only [if_pos rfl]
  have hsome := List.getElem?_eq_getElem (l := s.blocks) h
  rw [hsome]
  rfl

theorem trueOf_setTrueBlock_ne (s : CompileOptions) (b t x : Nat) (hx : x ≠ b) :
    trueOf (setTrueBlock s b t) x = trueOf s x := by
  show trueOf (pushIncoming (updateBlock s b _) t b) x = trueOf s x
  rw [trueOf_pushIncoming]
  unfold trueOf
  rw [getElem?_updateBlock]
  simp [hx]

@[simp] theorem nextOf_setTrueBlock (s : CompileOptions) (b t x : Nat) :
    nextOf (setTrueBlock s b t) x = nextOf s x := by
  show nextOf (pushIncoming (updateBlock s b _) t b) x = nextOf s x
  rw [nextOf_pushIncoming, nextOf_updateBlock_preserve]
  intro blk; rfl

@[simp] theorem falseOf_setTrueBlock (s : CompileOptions) (b t x : Nat) :
    falseOf (setTrueBlock s b t) x = falseOf s x := by
  show falseOf (pushIncoming (updateBlock s b _) t b) x = falseOf s x
  rw [falseOf_pushIncoming, falseOf_updateBlock_preserve]
  intro blk; rfl

theorem incomingOf_setTrueBlock_self (s : CompileOptions) (b t : Nat)
    (h : t < s.blocks.length) :
    incomingOf (setTrueBlock s b t) t = incomingOf s t ++ [b] := by
  show incomingOf (pushIncoming (updateBlock s b _) t b) t = incomingOf s t ++ [b]
  rw [incomingOf_pushIncoming_self _ _ _ (by simpa using h),
    incomingOf_updateBlock_preserve]
  intro blk; rfl

theorem incomingOf_setTrueBlock_ne (s : CompileOptions) (b t x : Nat) (hx : x ≠ t) :
    incomingOf (setTrueBlock s b t) x = incomingOf s x := by
  show incomingOf (pushIncoming (updateBlock s b _) t b) x = incomingOf s x
  rw [incomingOf_pushIncoming_ne _ _ _ _ hx, incomingOf_updateBlock_preserve]
  intro blk; rfl

@[simp] theorem setFalseBlock_blocks_length (s : CompileOptions) (b t : Nat) :
    (setFalseBlock s b t).blocks.length = s.blocks.length := by
  simp [setFalseBlock, pushIncoming]

@[simp] theorem setFalseBlock_breakBlocks (s : CompileOptions) (b t : Nat) :
    (setFalseBlock s b t).breakBlocks = s.breakBlocks := by
  simp [setFalseBlock, pushIncoming]

@[simp] theorem setFalseBlock_continueBlocks (s : CompileOptions) (b t : Nat) :
    (setFalseBlock s b t).continueBlocks = s.continueBlocks := by
  simp [setFalseBlock, pushIncoming]

@[simp] theorem setFalseBlock_currentLoop (s : CompileOptions) (b t : Nat) :
    (setFalseBlock s b t).currentLoop = s.currentLoop := by
  simp [setFalseBlock, pushIncoming]

@[simp] theorem setFalseBlock_routingEvents (s : CompileOptions) (b t : Nat) :
    (setFalseBlock s b t).routingEvents = s.routingEvents ++ [(b, t)] := by
  simp [setFalseBlock, pushIncoming]

@[simp] theorem setFalseBlock_directIncomingEvents (s : CompileOptions) (b t : Nat) :
    (setFalseBlock s b t).directIncomingEvents = s.directIncomingEvents := by
  simp [setFalseBlock, pushIncoming]

theorem falseOf_setFalseBlock_self (s : CompileOptions) (b t : Nat)
    (h : b < s.blocks.length) :
    falseOf (setFalseBlock s b t) b = some t := by
  show falseOf (pushIncoming (updateBlock s b _) t b) b = some t
  rw [falseOf_pushIncoming]
  unfold falseOf
  rw [getElem?_updateBlock]
  simp only [if_pos rfl]
  have hsome := List.getElem?_eq_getElem (l := s.blocks) h
  rw [hsome]
  rfl

theorem falseOf_setFalseBlock_ne (s : CompileOptions) (b t x : Nat) (hx : x ≠ b) :
    falseOf (setFalseBlock s b t) x = falseOf s x := by
  show falseOf (pushIncoming (updateBlock s b _) t b) x = falseOf s x
  rw [falseOf_pushIncoming]
  unfold falseOf
  rw [getElem?_updateBlock]
  simp [hx]

@[simp] theorem nextOf_setFalseBlock (s : CompileOptions) (b t x : Nat) :
    nextOf (setFalseBlock s b t) x = nextOf s x := by
  show nextOf (pushIncoming (updateBlock s b _) t b) x = nextOf s x
  rw [nextOf_pushIncoming, nextOf_updateBlock_preserve]
  intro blk; rfl

@[simp] theorem trueOf_setFalseBlock (s : CompileOptions) (b t x : Nat) :
    trueOf (setFalseBlock s b t) x = trueOf s x := by
  show trueOf (pushIncoming (updateBlock s b _) t b) x = trueOf s x
  rw [trueOf_pushIncoming, trueOf_updateBlock_preserve]
  intro blk; rfl

theorem incomingOf_setFalseBlock_self (s : CompileOptions) (b t : Nat)
    (h : t < s.blocks.length) :
    incomingOf (setFalseBlock s b t) t = incomingOf s t ++ [b] := by
  show incomingOf (pushIncoming (updateBlock s b _) t b) t = incomingOf s t ++ [b]
  rw [incomingOf_pushIncoming_self _ _ _ (by simpa using h),
    incomingOf_updateBlock_preserve]
  intro blk; rfl

theorem incomingOf_setFalseBlock_ne (s : CompileOptions) (b t x : Nat) (hx : x ≠ t) :
    incomingOf (setFalseBlock s b t) x = incomingOf s x := by
  show incomingOf (pushIncoming (updateBlock s b _) t b) x = incomingOf s x
  rw [incomingOf_pushIncoming_ne _ _ _ _ hx, incomingOf_updateBlock_preserve]
  intro blk; rfl

@[simp] theorem addIncoming_blocks_length (s : CompileOptions) (t b : Nat) :
    (addIncoming s t b).blocks.length = s.blocks.length := by
  simp [addIncoming, pushIncoming]

@[simp] theorem addIncoming_breakBlocks (s : CompileOptions) (t b : Nat) :
    (addIncoming s t b).breakBlocks = s.breakBlocks := by
  simp [addIncoming, pushIncoming]

@[simp] theorem addIncoming_continueBlocks (s : CompileOptions) (t b : Nat) :
    (addIncoming s t b).continueBlocks = s.continueBlocks := by
  simp [addIncoming, pushIncoming]

@[simp] theorem addIncoming_currentLoop (s : CompileOptions) (t b : Nat) :
    (addIncoming s t b).currentLoop = s.currentLoop := by
  simp [addIncoming, pushIncoming]

@[simp] theorem addIncoming_routingEvents (s : CompileOptions) (t b : Nat) :
    (addIncoming s t b).routingEvents = s.routingEvents := by
  simp [addIncoming, pushIncoming]

@[simp] theorem addIncoming_directIncomingEvents (s : CompileOptions) (t b : Nat) :
    (addIncoming s t b).directIncomingEvents = s.directIncomingEvents ++ [(b, t)] := by
  simp [addIncoming, pushIncoming]

@[simp] theorem nextOf_addIncoming (s : CompileOptions) (t b x : Nat) :
    nextOf (addIncoming s t b) x = nextOf s x := by
  show nextOf (pushIncoming s t b) x = nextOf s x
  rw [nextOf_pushIncoming]

@[simp] theorem trueOf_addIncoming (s : CompileOptions) (t b x : Nat) :
    trueOf (addIncoming s t b) x = trueOf s x := by
  show trueOf (pushIncoming s t b) x = trueOf s x
  rw [trueOf_pushIncoming]

@[simp] theorem falseOf_addIncoming (s : CompileOptions) (t b x : Nat) :
    falseOf (addIncoming s t b) x = falseOf s x := by
  show falseOf (pushIncoming s t b) x = falseOf s x
  rw [falseOf_pushIncoming]

theorem incomingOf_addIncoming_self (s : CompileOptions) (t b : Nat)
    (h : t < s.blocks.length) :
    incomingOf (addIncoming s t b) t = incomingOf s t ++ [b] := by
  show incomingOf (pushIncoming s t b) t = incomingOf s t ++ [b]
  exact incomingOf_pushIncoming_self _ _ _ h

theorem incomingOf_addIncoming_ne (s : CompileOptions) (t b x : Nat) (hx : x ≠ t) :
    incomingOf (addIncoming s t b) x = incomingOf s x := by
  show incomingOf (pushIncoming s t b) x = incomingOf s x
  exact incomingOf_pushIncoming_ne _ _ _ _ hx

@[simp] theorem newBlock_fst (s : CompileOptions) (b : TealBlock) :
    (newBlock s b).1 = s.blocks.length := rfl

@[simp] theorem newBlock_blocks_length (s : CompileOptions) (b : TealBlock) :
    (newBlock s b).2.blocks.length = s.blocks.length + 1 := by
  simp [newBlock]

@[simp] theorem newBlock_breakBlocks (s : CompileOptions) (b : TealBlock) :
    (newBlock s b).2.breakBlocks = s.breakBlocks := rfl

@[simp] theorem newBlock_continueBlocks (s : CompileOptions) (b : TealBlock) :
    (newBlock s b).2.continueBlocks = s.continueBlocks := rfl

@[simp] theorem newBlock_currentLoop (s : CompileOptions) (b : TealBlock) :
    (newBlock s b).2.currentLoop = s.currentLoop := rfl

@[simp] theorem newBlock_routingEvents (s : CompileOptions) (b : TealBlock) :
    (newBlock s b).2.routingEvents = s.routingEvents := rfl

@[simp] theorem newBlock_directIncomingEvents (s : CompileOptions) (b : TealBlock) :
    (newBlock s b).2.directIncomingEvents = s.directIncomingEvents := rfl

theorem newBlock_getElem?_lt (s : CompileOptions) (b : TealBlock) (x : Nat)
    (h : x < s.blocks.length) :
    (newBlock s b).2.blocks[x]? = s.blocks[x]? := by
  simp [newBlock, List.getElem?_append, h]

theorem newBlock_getElem?_self (s : CompileOptions) (b : TealBlock) :
    (newBlock s b).2.blocks[s.blocks.length]? = some b := by
  simp [newBlock]

theorem nextOf_newBlock_lt (s : CompileOptions) (b : TealBlock) (x : Nat)
    (h : x < s.blocks.length) :
    nextOf (newBlock s b).2 x = nextOf s x := by
  unfold nextOf
  rw [newBlock_getElem?_lt _ _ _ h]

theorem trueOf_newBlock_lt (s : CompileOptions) (b : TealBlock) (x : Nat)
    (h : x < s.blocks.length) :
    trueOf (newBlock s b).2 x = trueOf s x := by
  unfold trueOf
  rw [newBlock_getElem?_lt _ _ _ h]

theorem falseOf_newBlock_lt (s : CompileOptions) (b : TealBlock) (x : Nat)
    (h : x < s.blocks.length) :
    falseOf (newBlock s b).2 x = falseOf s x := by
  unfold falseOf
  rw [newBlock_getElem?_lt _ _ _ h]

theorem incomingOf_newBlock_lt (s : CompileOptions) (b : TealBlock) (x : Nat)
    (h : x < s.blocks.length) :
    incomingOf (newBlock s b).2 x = incomingOf s x := by
  unfold incomingOf
  rw [newBlock_getElem?_lt _ _ _ h]

theorem incomingOf_newBlock_ge (s : CompileOptions) (b : TealBlock) (x : Nat)
    (hb : b.incoming = []) (h : s.blocks.length ≤ x) :
    incomingOf (newBlock s b).2 x = [] := by
  unfold incomingOf
  rcases Nat.lt_or_ge x (s.blocks.length + 1) with hlt | hge
  · have hx : x = s.blocks.length := by omega
    subst hx
    rw [newBlock_getElem?_self]
    simpa using hb
  · rw [List.getElem?_eq_none (by simpa [newBlock] using hge)]

theorem getElem?_setNextBlock_frame (s : CompileOptions) (b t x : Nat)
    (hxb : x ≠ b) (hxt : x ≠ t) :
    (setNextBlock s b t).blocks[x]? = s.blocks[x]? := by
  show (pushIncoming (updateBlock s b _) t b).blocks[x]? = s.blocks[x]?
  unfold pushIncoming
  rw [getElem?_updateBlock, if_neg hxt, getElem?_updateBlock, if_neg hxb]

theorem getElem?_setTrueBlock_frame (s : CompileOptions) (b t x : Nat)
    (hxb : x ≠ b) (hxt : x ≠ t) :
    (setTrueBlock s b t).blocks[x]? = s.blocks[x]? := by
  show (pushIncoming (updateBlock s b _) t b).blocks[x]? = s.blocks[x]?
  unfold pushIncoming
  rw [getElem?_updateBlock, if_neg hxt, getElem?_updateBlock, if_neg hxb]

theorem getElem?_setFalseBlock_frame (s : CompileOptions) (b t x : Nat)
    (hxb : x ≠ b) (hxt : x ≠ t) :
    (setFalseBlock s b t).blocks[x]? = s.blocks[x]? := by
  show (pushIncoming (updateBlock s b _) t b).blocks[x]? = s.blocks[x]?
  unfold pushIncoming
  rw [getElem?_updateBlock, if_neg hxt, getElem?_updateBlock, if_neg hxb]

theorem getElem?_addIncoming_frame (s : CompileOptions) (t b x : Nat)
    (hxt : x ≠ t) :
    (addIncoming s t b).blocks[x]? = s.blocks[x]? := by
  show (pushIncoming s t b).blocks[x]? = s.blocks[x]?
  unfold pushIncoming
  rw [getElem?_updateBlock, if_neg hxt]

/-! ## Lemmas about `foldWire` -/

@[simp] theorem foldWire_nil (t : Nat) (s : CompileOptions) :
    foldWire [] t s = s := rfl

theorem foldWire_cons (b : Nat) (l : List Nat) (t : Nat) (s : CompileOptions) :
    foldWire (b :: l) t s = foldWire l t (setNextBlock s b t) := rfl

@[simp] theorem foldWire_blocks_length (l : List Nat) (t : Nat) (s : CompileOptions) :
    (foldWire l t s).blocks.length = s.blocks.length := by
  induction l generalizing s with
  | nil => rfl
  | cons b l ih => rw [foldWire_cons, ih, setNextBlock_blocks_length]

@[simp] theorem foldWire_breakBlocks (l : List Nat) (t : Nat) (s : CompileOptions) :
    (foldWire l t s).breakBlocks = s.breakBlocks := by
  induction l generalizing s with
  | nil => rfl
  | cons b l ih => rw [foldWire_cons, ih, setNextBlock_breakBlocks]

@[simp] theorem foldWire_continueBlocks (l : List Nat) (t : Nat) (s : CompileOptions) :
    (foldWire l t s).continueBlocks = s.continueBlocks := by
  induction l generalizing s with
  | nil => rfl
  | cons b l ih => rw [foldWire_cons, ih, setNextBlock_continueBlocks]

@[simp] theorem foldWire_currentLoop (l : List Nat) (t : Nat) (s : CompileOptions) :
    (foldWire l t s).currentLoop = s.currentLoop := by
  induction l generalizing s with
  | nil => rfl
  | cons b l ih => rw [foldWire_cons, ih, setNextBlock_currentLoop]

@[simp] theorem foldWire_directIncomingEvents (l : List Nat) (t : Nat)
    (s : CompileOptions) :
    (foldWire l t s).directIncomingEvents = s.directIncomingEvents := by
  induction l generalizing s with
  | nil => rfl
  | cons b l ih => rw [foldWire_cons, ih, setNextBlock_directIncomingEvents]

theorem foldWire_routingEvents (l : List Nat) (t : Nat) (s : CompileOptions) :
    (foldWire l t s).routingEvents =
      s.routingEvents ++ l.map (fun b => (b, t)) := by
  induction l generalizing s with
  | nil => simp
  | cons b l ih =>
      rw [foldWire_cons, ih, setNextBlock_routingEvents]
      simp

theorem nextOf_foldWire_not_mem (l : List Nat) (t : Nat) (s : CompileOptions)
    (x : Nat) (hx : x ∉ l) :
    nextOf (foldWire l t s) x = nextOf s x := by
  induction l generalizing s with
  | nil => rfl
  | cons b l ih =>
      rw [foldWire_cons, ih _ (fun h => hx (List.mem_cons_of_mem _ h)),
        nextOf_setNextBlock_ne _ _ _ _
          (fun h => hx (by rw [h]; exact List.mem_cons_self _ _))]

theorem nextOf_foldWire_mem (l : List Nat) (t : Nat) (s : CompileOptions)
    (b : Nat) (hmem : b ∈ l) (hlt : b < s.blocks.length) :
    nextOf (foldWire l t s) b = some t := by
  induction l generalizing s with
  | nil => exact absurd hmem (List.not_mem_nil _)
  | cons c l ih =>
      rw [foldWire_cons]
      by_cases hb : b ∈ l
      · exact ih _ hb (by simpa using hlt)
      · have hbc : b = c := by
          rcases List.mem_cons.mp hmem with h | h
          · exact h
          · exact absurd h hb
        subst hbc
        rw [nextOf_foldWire_not_mem _ _ _ _ hb,
          nextOf_setNextBlock_self _ _ _ hlt]

@[simp] theorem trueOf_foldWire (l : List Nat) (t : Nat) (s : CompileOptions)
    (x : Nat) :
    trueOf (foldWire l t s) x = trueOf s x := by
  induction l generalizing s with
  | nil => rfl
  | cons b l ih => rw [foldWire_cons, ih, trueOf_setNextBlock]

@[simp] theorem falseOf_foldWire (l : List Nat) (t : Nat) (s : CompileOptions)
    (x : Nat) :
    falseOf (foldWire l t s) x = falseOf s x := by
  induction l generalizing s with
  | nil => rfl
  | cons b l ih => rw [foldWire_cons, ih, falseOf_setNextBlock]

theorem incomingOf_foldWire_ne (l : List Nat) (t : Nat) (s : CompileOptions)
    (x : Nat) (hx : x ≠ t) :
    incomingOf (foldWire l t s) x = incomingOf s x := by
  induction l generalizing s with
  | nil => rfl
  | cons b l ih =>
      rw [foldWire_cons, ih, incomingOf_setNextBlock_ne _ _ _ _ hx]

theorem getElem?_foldWire_frame (l : List Nat) (t : Nat) (s : CompileOptions)
    (x : Nat) (hxl : x ∉ l) (hxt : x ≠ t) :
    (foldWire l t s).blocks[x]? = s.blocks[x]? := by
  induction l generalizing s with
  | nil => rfl
  | cons b l ih =>
      rw [foldWire_cons, ih _ (fun h => hxl (List.mem_cons_of_mem _ h)),
        getElem?_setNextBlock_frame _ _ _ _
          (fun h => hxl (by rw [h]; exact List.mem_cons_self _ _)) hxt]

/-! ## Preservation of the well-formedness invariants -/

theorem ListsWF_of_same (s s' : CompileOptions)
    (hb : s'.breakBlocks = s.breakBlocks) (hc : s'.continueBlocks = s.continueBlocks)
    (hl : s'.blocks.length = s.blocks.length) (h : ListsWF s) : ListsWF s' := by
  obtain ⟨h1, h2, h3⟩ := h
  exact ⟨fun b hbb => hl ▸ h1 b (hb ▸ hbb), fun b hbb => hl ▸ h2 b (hc ▸ hbb),
    fun b hbb => hc ▸ h3 b (hb ▸ hbb)⟩

theorem EventsWF_setNextBlock (s : CompileOptions) (b t : Nat)
    (ht : t < s.blocks.length) (h : EventsWF s) : EventsWF (setNextBlock s b t) := by
  obtain ⟨h1, h2, h3⟩ := h
  refine ⟨?_, ?_, ?_⟩
  · intro p hp
    rw [setNextBlock_routingEvents] at hp
    rw [setNextBlock_blocks_length]
    rcases List.mem_append.mp hp with hp | hp
    · exact h1 p hp
    · simp only [List.mem_singleton] at hp
      subst hp
      exact ht
  · intro p hp
    rw [setNextBlock_directIncomingEvents] at hp
    rw [setNextBlock_blocks_length]
    exact h2 p hp
  · intro B T
    rw [setNextBlock_routingEvents, setNextBlock_directIncomingEvents]
    by_cases hT : T = t
    · rw [hT, incomingOf_setNextBlock_self _ _ _ ht]
      have hBt := h3 B t
      simp only [List.mem_append, List.mem_singleton, Prod.mk.injEq,
        eq_self_iff_true, and_true]
      tauto
    · rw [incomingOf_setNextBlock_ne _ _ _ _ hT]
      have hBT := h3 B T
      simp only [List.mem_append, List.mem_singleton, Prod.mk.injEq]
      tauto

theorem EventsWF_setTrueBlock (s : CompileOptions) (b t : Nat)
    (ht : t < s.blocks.length) (h : EventsWF s) : EventsWF (setTrueBlock s b t) := by
  obtain ⟨h1, h2, h3⟩ := h
  refine ⟨?_, ?_, ?_⟩
  · intro p hp
    rw [setTrueBlock_routingEvents] at hp
    rw [setTrueBlock_blocks_length]
    rcases List.mem_append.mp hp with hp | hp
    · exact h1 p hp
    · simp only [List.mem_singleton] at hp
      subst hp
      exact ht
  · intro p hp
    rw [setTrueBlock_directIncomingEvents] at hp
    rw [setTrueBlock_blocks_length]
    exact h2 p hp
  · intro B T
    rw [setTrueBlock_routingEvents, setTrueBlock_directIncomingEvents]
    by_cases hT : T = t
    · rw [hT, incomingOf_setTrueBlock_self _ _ _ ht]
      have hBt := h3 B t
      simp only [List.mem_append, List.mem_singleton, Prod.mk.injEq,
        eq_self_iff_true, and_true]
      tauto
    · rw [incomingOf_setTrueBlock_ne _ _ _ _ hT]
      have hBT := h3 B T
      simp only [List.mem_append, List.mem_singleton, Prod.mk.injEq]
      tauto

theorem EventsWF_setFalseBlock (s : CompileOptions) (b t : Nat)
    (ht : t < s.blocks.length) (h : EventsWF s) : EventsWF (setFalseBlock s b t) := by
  obtain ⟨h1, h2, h3⟩ := h
  refine ⟨?_, ?_, ?_⟩
  · intro p hp
    rw [setFalseBlock_routingEvents] at hp
    rw [setFalseBlock_blocks_length]
    rcases List.mem_append.mp hp with hp | hp
    · exact h1 p hp
    · simp only [List.mem_singleton] at hp
      subst hp
      exact ht
  · intro p hp
    rw [setFalseBlock_directIncomingEvents] at hp
    rw [setFalseBlock_blocks_length]
    exact h2 p hp
  · intro B T
    rw [setFalseBlock_routingEvents, setFalseBlock_directIncomingEvents]
    by_cases hT : T = t
    · rw [hT, incomingOf_setFalseBlock_self _ _ _ ht]
      have hBt := h3 B t
      simp only [List.mem_append, List.mem_singleton, Prod.mk.injEq,
        eq_self_iff_true, and_true]
      tauto
    · rw [incomingOf_setFalseBlock_ne _ _ _ _ hT]
      have hBT := h3 B T
      simp only [List.mem_append, List.mem_singleton, Prod.mk.injEq]
      tauto

theorem EventsWF_addIncoming (s : CompileOptions) (t b : Nat)
    (ht : t < s.blocks.length) (h : EventsWF s) : EventsWF (addIncoming s t b) := by
  obtain ⟨h1, h2, h3⟩ := h
  refine ⟨?_, ?_, ?_⟩
  · intro p hp
    rw [addIncoming_routingEvents] at hp
    rw [addIncoming_blocks_length]
    exact h1 p hp
  · intro p hp
    rw [addIncoming_directIncomingEvents] at hp
    rw [addIncoming_blocks_length]
    rcases List.mem_append.mp hp with hp | hp
    · exact h2 p hp
    · simp only [List.mem_singleton] at hp
      subst hp
      exact ht
  · intro B T
    rw [addIncoming_routingEvents, addIncoming_directIncomingEvents]
    by_cases hT : T = t
    · rw [hT, incomingOf_addIncoming_self _ _ _ ht]
      have hBt := h3 B t
      simp only [List.mem_append, List.mem_singleton, Prod.mk.injEq,
        eq_self_iff_true, and_true]
      tauto
    · rw [incomingOf_addIncoming_ne _ _ _ _ hT]
      have hBT := h3 B T
      simp only [List.mem_append, List.mem_singleton, Prod.mk.injEq]
      tauto

theorem EventsWF_newBlock (s : CompileOptions) (b : TealBlock)
    (hb : b.incoming = []) (h : EventsWF s) : EventsWF (newBlock s b).2 := by
  obtain ⟨h1, h2, h3⟩ := h
  refine ⟨?_, ?_, ?_⟩
  · intro p hp
    rw [newBlock_routingEvents] at hp
    rw [newBlock_blocks_length]
    exact Nat.lt_succ_of_lt (h1 p hp)
  · intro p hp
    rw [newBlock_directIncomingEvents] at hp
    rw [newBlock_blocks_length]
    exact Nat.lt_succ_of_lt (h2 p hp)
  · intro B T
    rw [newBlock_routingEvents, newBlock_directIncomingEvents]
    by_cases hT : T < s.blocks.length
    · rw [show incomingOf (newBlock s b).2 T = incomingOf s T from
        incomingOf_newBlock_lt _ _ _ hT]
      exact h3 B T
    · rw [incomingOf_newBlock_ge _ _ _ hb (Nat.le_of_not_lt hT)]
      simp only [List.not_mem_nil, false_iff]
      intro hmem
      rcases hmem with hr | hd
      · exact hT (h1 _ hr)
      · exact hT (h2 _ hd)

theorem EventsWF_foldWire (l : List Nat) (t : Nat) (s : CompileOptions)
    (ht : t < s.blocks.length) (h : EventsWF s) : EventsWF (foldWire l t s) := by
  induction l generalizing s with
  | nil => exact h
  | cons b l ih =>
      rw [foldWire_cons]
      exact ih _ (by simpa using ht) (EventsWF_setNextBlock _ _ _ ht h)

/-! ## Reduction helpers and further projections -/

theorem exceptBind_ok {α β ε : Type} (a : α) (f : α → Except ε β) :
    (Bind.bind (Except.ok a) f : Except ε β) = f a := rfl

theorem exceptBind_error {α β ε : Type} (e : ε) (f : α → Except ε β) :
    (Bind.bind (Except.error e) f : Except ε β) = Except.error e := rfl

theorem opsOf_updateBlock_preserve (s : CompileOptions) (i : Nat)
    (f : TealBlock → TealBlock) (x : Nat)
    (hf : ∀ blk, (f blk).ops = blk.ops) :
    opsOf (updateBlock s i f) x = opsOf s x := by
  unfold opsOf
  rw [getElem?_updateBlock]
  by_cases hx : x = i
  · subst hx; simp only [if_pos rfl]; cases s.blocks[x]? with
    | none => rfl
    | some blk => simp [hf]
  · simp [hx]

theorem isCondOf_updateBlock_preserve (s : CompileOptions) (i : Nat)
    (f : TealBlock → TealBlock) (x : Nat)
    (hf : ∀ blk, (f blk).isConditional = blk.isConditional) :
    isCondOf (updateBlock s i f) x = isCondOf s x := by
  unfold isCondOf
  rw [getElem?_updateBlock]
  by_cases hx : x = i
  · subst hx; simp only [if_pos rfl]; cases s.blocks[x]? with
    | none => rfl
    | some blk => simp [hf]
  · simp [hx]

@[simp] theorem opsOf_setNextBlock (s : CompileOptions) (b t x : Nat) :
    opsOf (setNextBlock s b t) x = opsOf s x := by
  show opsOf (pushIncoming (updateBlock s b _) t b) x = opsOf s x
  unfold pushIncoming
  rw [opsOf_updateBlock_preserve, opsOf_updateBlock_preserve]
  · intro blk; rfl
  · intro blk; rfl

@[simp] theorem opsOf_setTrueBlock (s : CompileOptions) (b t x : Nat) :
    opsOf (setTrueBlock s b t) x = opsOf s x := by
  show opsOf (pushIncoming (updateBlock s b _) t b) x = opsOf s x
  unfold pushIncoming
  rw [opsOf_updateBlock_preserve, opsOf_updateBlock_preserve]
  · intro blk; rfl
  · intro blk; rfl

@[simp] theorem opsOf_setFalseBlock (s : CompileOptions) (b t x : Nat) :
    opsOf (setFalseBlock s b t) x = opsOf s x := by
  show opsOf (pushIncoming (updateBlock s b _) t b) x = opsOf s x
  unfold pushIncoming
  rw [opsOf_updateBlock_preserve, opsOf_updateBlock_preserve]
  · intro blk; rfl
  · intro blk; rfl

@[simp] theorem opsOf_addIncoming (s : CompileOptions) (t b x : Nat) :
    opsOf (addIncoming s t b) x = opsOf s x := by
  show opsOf (pushIncoming s t b) x = opsOf s x
  unfold pushIncoming
  rw [opsOf_updateBlock_preserve]
  intro blk; rfl

@[simp] theorem isCondOf_setNextBlock (s : CompileOptions) (b t x : Nat) :
    isCondOf (setNextBlock s b t) x = isCondOf s x := by
  show isCondOf (pushIncoming (updateBlock s b _) t b) x = isCondOf s x
  unfold pushIncoming
  rw [isCondOf_updateBlock_preserve, isCondOf_updateBlock_preserve]
  · intro blk; rfl
  · intro blk; rfl

@[simp] theorem isCondOf_setTrueBlock (s : CompileOptions) (b t x : Nat) :
    isCondOf (setTrueBlock s b t) x = isCondOf s x := by
  show isCondOf (pushIncoming (updateBlock s b _) t b) x = isCondOf s x
  unfold pushIncoming
  rw [isCondOf_updateBlock_preserve, isCondOf_updateBlock_preserve]
  · intro blk; rfl
  · intro blk; rfl

@[simp] theorem isCondOf_setFalseBlock (s : CompileOptions) (b t x : Nat) :
    isCondOf (setFalseBlock s b t) x = isCondOf s x := by
  show isCondOf (pushIncoming (updateBlock s b _) t b) x = isCondOf s x
  unfold pushIncoming
  rw [isCondOf_updateBlock_preserve, isCondOf_updateBlock_preserve]
  · intro blk; rfl
  · intro blk; rfl

@[simp] theorem isCondOf_addIncoming (s : CompileOptions) (t b x : Nat) :
    isCondOf (addIncoming s t b) x = isCondOf s x := by
  show isCondOf (pushIncoming s t b) x = isCondOf s x
  unfold pushIncoming
  rw [isCondOf_updateBlock_preserve]
  intro blk; rfl

@[simp] theorem opsOf_foldWire (l : List Nat) (t : Nat) (s : CompileOptions) (x : Nat) :
    opsOf (foldWire l t s) x = opsOf s x := by
  induction l generalizing s with
  | nil => rfl
  | cons b l ih => rw [foldWire_cons, ih, opsOf_setNextBlock]

@[simp] theorem isCondOf_foldWire (l : List Nat) (t : Nat) (s : CompileOptions) (x : Nat) :
    isCondOf (foldWire l t s) x = isCondOf s x := by
  induction l generalizing s with
  | nil => rfl
  | cons b l ih => rw [foldWire_cons, ih, isCondOf_setNextBlock]

theorem opsOf_newBlock_lt (s : CompileOptions) (b : TealBlock) (x : Nat)
    (h : x < s.blocks.length) :
    opsOf (newBlock s b).2 x = opsOf s x := by
  unfold opsOf
  rw [newBlock_getElem?_lt _ _ _ h]

theorem opsOf_newBlock_self (s : CompileOptions) (b : TealBlock) :
    opsOf (newBlock s b).2 s.blocks.length = some b.ops := by
  unfold opsOf
  rw [newBlock_getElem?_self]
  rfl

theorem isCondOf_newBlock_lt (s : CompileOptions) (b : TealBlock) (x : Nat)
    (h : x < s.blocks.length) :
    isCondOf (newBlock s b).2 x = isCondOf s x := by
  unfold isCondOf
  rw [newBlock_getElem?_lt _ _ _ h]

theorem isCondOf_newBlock_self (s : CompileOptions) (b : TealBlock) :
    isCondOf (newBlock s b).2 s.blocks.length = some b.isConditional := by
  unfold isCondOf
  rw [newBlock_getElem?_self]
  rfl

/-! ## Lemmas about `whileWire1` -/

@[simp] theorem newSimpleBlock_fst (s : CompileOptions) :
    (newSimpleBlock s).1 = s.blocks.length := rfl

@[simp] theorem newSimpleBlock_blocks_length (s : CompileOptions) :
    (newSimpleBlock s).2.blocks.length = s.blocks.length + 1 := by
  simp [newSimpleBlock]

@[simp] theorem newSimpleBlock_breakBlocks (s : CompileOptions) :
    (newSimpleBlock s).2.breakBlocks = s.breakBlocks := rfl

@[simp] theorem newSimpleBlock_continueBlocks (s : CompileOptions) :
    (newSimpleBlock s).2.continueBlocks = s.continueBlocks := rfl

@[simp] theorem newSimpleBlock_currentLoop (s : CompileOptions) :
    (newSimpleBlock s).2.currentLoop = s.currentLoop := rfl

@[simp] theorem newConditionalBlock_fst (s : CompileOptions) :
    (newConditionalBlock s).1 = s.blocks.length := rfl

@[simp] theorem newConditionalBlock_blocks_length (s : CompileOptions) :
    (newConditionalBlock s).2.blocks.length = s.blocks.length + 1 := by
  simp [newConditionalBlock]

@[simp] theorem newConditionalBlock_breakBlocks (s : CompileOptions) :
    (newConditionalBlock s).2.breakBlocks = s.breakBlocks := rfl

@[simp] theorem newConditionalBlock_continueBlocks (s : CompileOptions) :
    (newConditionalBlock s).2.continueBlocks = s.continueBlocks := rfl

@[simp] theorem newConditionalBlock_currentLoop (s : CompileOptions) :
    (newConditionalBlock s).2.currentLoop = s.currentLoop := rfl

@[simp] theorem whileWire1_fst (p : Option Expr) (d : Nat) (s : CompileOptions) :
    (whileWire1 p d s).1 = s.blocks.length := rfl

@[simp] theorem whileWire1_blocks_length (p : Option Expr) (d : Nat)
    (s : CompileOptions) :
    (whileWire1 p d s).2.blocks.length = s.blocks.length + 1 := by
  simp [whileWire1]

@[simp] theorem whileWire1_breakBlocks (p : Option Expr) (d : Nat)
    (s : CompileOptions) :
    (whileWire1 p d s).2.breakBlocks = s.breakBlocks := by
  simp [whileWire1]

@[simp] theorem whileWire1_continueBlocks (p : Option Expr) (d : Nat)
    (s : CompileOptions) :
    (whileWire1 p d s).2.continueBlocks = s.continueBlocks := by
  simp [whileWire1]

@[simp] theorem whileWire1_currentLoop (p : Option Expr) (d : Nat)
    (s : CompileOptions) :
    (whileWire1 p d s).2.currentLoop = p := by
  simp [whileWire1]

@[simp] theorem whileWire1_directIncomingEvents (p : Option Expr) (d : Nat)
    (s : CompileOptions) :
    (whileWire1 p d s).2.directIncomingEvents = s.directIncomingEvents := by
  simp [whileWire1, newSimpleBlock]

theorem nextOf_whileWire1_break (p : Option Expr) (d : Nat) (s : CompileOptions)
    (b : Nat) (hmem : b ∈ s.breakBlocks) (hlt : b < s.blocks.length)
    (hnc : b ∉ s.continueBlocks) :
    nextOf (whileWire1 p d s).2 b = some s.blocks.length := by
  unfold whileWire1
  simp only []
  rw [nextOf_foldWire_not_mem _ _ _ _ (by simpa using hnc)]
  rw [nextOf_foldWire_mem _ _ _ _ (by simpa using hmem) (by simp; omega)]
  rfl

theorem nextOf_whileWire1_not (p : Option Expr) (d : Nat) (s : CompileOptions)
    (x : Nat) (hb : x ∉ s.breakBlocks) (hc : x ∉ s.continueBlocks)
    (hlt : x < s.blocks.length) :
    nextOf (whileWire1 p d s).2 x = nextOf s x := by
  unfold whileWire1
  simp only []
  rw [nextOf_foldWire_not_mem _ _ _ _ (by simpa using hc)]
  rw [nextOf_foldWire_not_mem _ _ _ _ (by simpa using hb)]
  show nextOf (newBlock _ {}).2 x = nextOf s x
  rw [nextOf_newBlock_lt _ _ _ (by simpa using hlt)]
  rfl

theorem nextOf_whileWire1_endB (p : Option Expr) (d : Nat) (s : CompileOptions)
    (hb : ∀ y ∈ s.breakBlocks, y < s.blocks.length)
    (hc : ∀ y ∈ s.continueBlocks, y < s.blocks.length) :
    nextOf (whileWire1 p d s).2 s.blocks.length = none := by
  unfold whileWire1
  simp only []
  rw [nextOf_foldWire_not_mem _ _ _ _
    (by simp only [foldWire_continueBlocks, newSimpleBlock_continueBlocks]
        intro hmem
        exact absurd (hc _ hmem) (by omega))]
  rw [nextOf_foldWire_not_mem _ _ _ _
    (by simp only [newSimpleBlock_breakBlocks]
        intro hmem
        exact absurd (hb _ hmem) (by omega))]
  unfold nextOf
  rw [show (newSimpleBlock { s with currentLoop := p }).2.blocks[s.blocks.length]? =
      some {} from newBlock_getElem?_self _ _]

theorem trueOf_whileWire1 (p : Option Expr) (d : Nat) (s : CompileOptions)
    (x : Nat) (hlt : x < s.blocks.length) :
    trueOf (whileWire1 p d s).2 x = trueOf s x := by
  unfold whileWire1
  simp only [trueOf_foldWire]
  show trueOf (newBlock _ {}).2 x = trueOf s x
  rw [trueOf_newBlock_lt _ _ _ (by simpa using hlt)]
  rfl

theorem falseOf_whileWire1 (p : Option Expr) (d : Nat) (s : CompileOptions)
    (x : Nat) (hlt : x < s.blocks.length) :
    falseOf (whileWire1 p d s).2 x = falseOf s x := by
  unfold whileWire1
  simp only [falseOf_foldWire]
  show falseOf (newBlock _ {}).2 x = falseOf s x
  rw [falseOf_newBlock_lt _ _ _ (by simpa using hlt)]
  rfl

theorem opsOf_whileWire1_lt (p : Option Expr) (d : Nat) (s : CompileOptions)
    (x : Nat) (hlt : x < s.blocks.length) :
    opsOf (whileWire1 p d s).2 x = opsOf s x := by
  unfold whileWire1
  simp only [opsOf_foldWire]
  show opsOf (newBlock _ {}).2 x = opsOf s x
  rw [opsOf_newBlock_lt _ _ _ (by simpa using hlt)]
  rfl

theorem opsOf_whileWire1_endB (p : Option Expr) (d : Nat) (s : CompileOptions) :
    opsOf (whileWire1 p d s).2 s.blocks.length = some [] := by
  unfold whileWire1
  simp only [opsOf_foldWire]
  exact opsOf_newBlock_self _ _


theorem isCondOf_whileWire1_lt (p : Option Expr) (d : Nat) (s : CompileOptions)
    (x : Nat) (hlt : x < s.blocks.length) :
    isCondOf (whileWire1 p d s).2 x = isCondOf s x := by
  unfold whileWire1
  simp only [isCondOf_foldWire]
  show isCondOf (newBlock _ {}).2 x = isCondOf s x
  rw [isCondOf_newBlock_lt _ _ _ (by simpa using hlt)]
  rfl

theorem isCondOf_whileWire1_endB (p : Option Expr) (d : Nat) (s : CompileOptions) :
    isCondOf (whileWire1 p d s).2 s.blocks.length = some false := by
  unfold whileWire1
  simp only [isCondOf_foldWire]
  exact isCondOf_newBlock_self _ _

theorem getElem?_whileWire1_frame (p : Option Expr) (d : Nat) (s : CompileOptions)
    (x : Nat) (hb : x ∉ s.breakBlocks) (hc : x ∉ s.continueBlocks) (hd : x ≠ d)
    (hlt : x < s.blocks.length) :
    (whileWire1 p d s).2.blocks[x]? = s.blocks[x]? := by
  unfold whileWire1
  simp only []
  rw [getElem?_foldWire_frame _ _ _ _ (by simpa using hc) hd]
  rw [getElem?_foldWire_frame _ _ _ _ (by simpa using hb) (by simp; omega)]
  show (newBlock _ {}).2.blocks[x]? = s.blocks[x]?
  rw [newBlock_getElem?_lt _ _ _ (by simpa using hlt)]

theorem ListsWF_whileWire1 (p : Option Expr) (d : Nat) (s : CompileOptions)
    (h : ListsWF s) : ListsWF (whileWire1 p d s).2 := by
  obtain ⟨h1, h2, h3⟩ := h
  refine ⟨?_, ?_, ?_⟩
  · intro b hbm
    rw [whileWire1_breakBlocks] at hbm
    rw [whileWire1_blocks_length]
    exact Nat.lt_succ_of_lt (h1 b hbm)
  · intro b hbm
    rw [whileWire1_continueBlocks] at hbm
    rw [whileWire1_blocks_length]
    exact Nat.lt_succ_of_lt (h2 b hbm)
  · intro b hbm
    rw [whileWire1_breakBlocks] at hbm
    rw [whileWire1_continueBlocks]
    exact h3 b hbm

theorem EventsWF_whileWire1 (p : Option Expr) (d : Nat) (s : CompileOptions)
    (hd : d < s.blocks.length) (h : EventsWF s) : EventsWF (whileWire1 p d s).2 := by
  unfold whileWire1
  simp only []
  apply EventsWF_foldWire _ _ _ (by simp; omega)
  apply EventsWF_foldWire _ _ _ (by simp)
  apply EventsWF_newBlock _ _ rfl
  obtain ⟨h1, h2, h3⟩ := h
  exact ⟨h1, h2, h3⟩

/-! ## Lemmas about `whileWire2` -/

theorem newConditionalBlock_getElem?_lt (s : CompileOptions) (x : Nat)
    (h : x < s.blocks.length) :
    (newConditionalBlock s).2.blocks[x]? = s.blocks[x]? :=
  newBlock_getElem?_lt _ _ _ h

@[simp] theorem whileWire2_blocks_length (cs ce d e : Nat) (s : CompileOptions) :
    (whileWire2 cs ce d e s).blocks.length = s.blocks.length + 1 := by
  simp [whileWire2]

@[simp] theorem whileWire2_breakBlocks (cs ce d e : Nat) (s : CompileOptions) :
    (whileWire2 cs ce d e s).breakBlocks = s.breakBlocks := by
  simp [whileWire2]

@[simp] theorem whileWire2_continueBlocks (cs ce d e : Nat) (s : CompileOptions) :
    (whileWire2 cs ce d e s).continueBlocks = s.continueBlocks := by
  simp [whileWire2]

@[simp] theorem whileWire2_currentLoop (cs ce d e : Nat) (s : CompileOptions) :
    (whileWire2 cs ce d e s).currentLoop = s.currentLoop := by
  simp [whileWire2]

theorem nextOf_whileWire2_lt_ne (cs ce d e : Nat) (s : CompileOptions) (x : Nat)
    (hne : x ≠ ce) (hlt : x < s.blocks.length) :
    nextOf (whileWire2 cs ce d e s) x = nextOf s x := by
  unfold whileWire2
  simp only [nextOf_addIncoming, nextOf_setFalseBlock, nextOf_setTrueBlock]
  rw [nextOf_setNextBlock_ne _ _ _ _ hne]
  simp only [nextOf_setFalseBlock, nextOf_setTrueBlock]
  show nextOf (newBlock _ _).2 x = nextOf s x
  rw [nextOf_newBlock_lt _ _ _ hlt]

theorem nextOf_whileWire2_condEnd (cs ce d e : Nat) (s : CompileOptions)
    (hce : ce < s.blocks.length) :
    nextOf (whileWire2 cs ce d e s) ce = some s.blocks.length := by
  unfold whileWire2
  simp only [nextOf_addIncoming]
  rw [nextOf_setNextBlock_self _ _ _ (by simp; omega)]
  rfl

theorem trueOf_whileWire2_branch (cs ce d e : Nat) (s : CompileOptions) :
    trueOf (whileWire2 cs ce d e s) s.blocks.length = some d := by
  unfold whileWire2
  simp only [trueOf_addIncoming, trueOf_setNextBlock, trueOf_setFalseBlock]
  rw [show (newConditionalBlock s).1 = s.blocks.length from rfl]
  rw [show s.blocks.length = (newConditionalBlock s).1 from rfl]
  rw [trueOf_setTrueBlock_self _ _ _ (by simp)]

theorem falseOf_whileWire2_branch (cs ce d e : Nat) (s : CompileOptions) :
    falseOf (whileWire2 cs ce d e s) s.blocks.length = some e := by
  unfold whileWire2
  simp only [falseOf_addIncoming, falseOf_setNextBlock]
  rw [show s.blocks.length = (newConditionalBlock s).1 from rfl]
  rw [falseOf_setFalseBlock_self _ _ _ (by simp)]

theorem trueOf_whileWire2_lt (cs ce d e : Nat) (s : CompileOptions) (x : Nat)
    (hlt : x < s.blocks.length) :
    trueOf (whileWire2 cs ce d e s) x = trueOf s x := by
  unfold whileWire2
  simp only [trueOf_addIncoming, trueOf_setNextBlock, trueOf_setFalseBlock]
  rw [trueOf_setTrueBlock_ne _ _ _ _ (by simp; omega)]
  show trueOf (newBlock _ _).2 x = trueOf s x
  rw [trueOf_newBlock_lt _ _ _ hlt]

theorem falseOf_whileWire2_lt (cs ce d e : Nat) (s : CompileOptions) (x : Nat)
    (hlt : x < s.blocks.length) :
    falseOf (whileWire2 cs ce d e s) x = falseOf s x := by
  unfold whileWire2
  simp only [falseOf_addIncoming, falseOf_setNextBlock, falseOf_setTrueBlock]
  rw [falseOf_setFalseBlock_ne _ _ _ _ (by simp; omega)]
  simp only [falseOf_setTrueBlock]
  show falseOf (newBlock _ _).2 x = falseOf s x
  rw [falseOf_newBlock_lt _ _ _ hlt]

theorem opsOf_whileWire2_lt (cs ce d e : Nat) (s : CompileOptions) (x : Nat)
    (hlt : x < s.blocks.length) :
    opsOf (whileWire2 cs ce d e s) x = opsOf s x := by
  unfold whileWire2
  simp only [opsOf_addIncoming, opsOf_setNextBlock, opsOf_setFalseBlock,
    opsOf_setTrueBlock]
  show opsOf (newBlock _ _).2 x = opsOf s x
  rw [opsOf_newBlock_lt _ _ _ hlt]

theorem isCondOf_whileWire2_lt (cs ce d e : Nat) (s : CompileOptions) (x : Nat)
    (hlt : x < s.blocks.length) :
    isCondOf (whileWire2 cs ce d e s) x = isCondOf s x := by
  unfold whileWire2
  simp only [isCondOf_addIncoming, isCondOf_setNextBlock, isCondOf_setFalseBlock,
    isCondOf_setTrueBlock]
  show isCondOf (newBlock _ _).2 x = isCondOf s x
  rw [isCondOf_newBlock_lt _ _ _ hlt]

theorem getElem?_whileWire2_frame (cs ce d e : Nat) (s : CompileOptions) (x : Nat)
    (hce : x ≠ ce) (hcs : x ≠ cs) (hd : x ≠ d) (he : x ≠ e)
    (hlt : x < s.blocks.length) :
    (whileWire2 cs ce d e s).blocks[x]? = s.blocks[x]? := by
  unfold whileWire2
  simp only []
  rw [getElem?_addIncoming_frame _ _ _ _ hcs]
  rw [getElem?_setNextBlock_frame _ _ _ _ hce (by simp; omega)]
  rw [getElem?_setFalseBlock_frame _ _ _ _ (by simp; omega) he]
  rw [getElem?_setTrueBlock_frame _ _ _ _ (by simp; omega) hd]
  show (newBlock _ _).2.blocks[x]? = s.blocks[x]?
  rw [newBlock_getElem?_lt _ _ _ hlt]

theorem ListsWF_whileWire2 (cs ce d e : Nat) (s : CompileOptions)
    (h : ListsWF s) : ListsWF (whileWire2 cs ce d e s) := by
  obtain ⟨h1, h2, h3⟩ := h
  refine ⟨?_, ?_, ?_⟩
  · intro b hbm
    rw [whileWire2_breakBlocks] at hbm
    rw [whileWire2_blocks_length]
    exact Nat.lt_succ_of_lt (h1 b hbm)
  · intro b hbm
    rw [whileWire2_continueBlocks] at hbm
    rw [whileWire2_blocks_length]
    exact Nat.lt_succ_of_lt (h2 b hbm)
  · intro b hbm
    rw [whileWire2_breakBlocks] at hbm
    rw [whileWire2_continueBlocks]
    exact h3 b hbm

theorem EventsWF_whileWire2 (cs ce d e : Nat) (s : CompileOptions)
    (hd : d < s.blocks.length) (he : e < s.blocks.length)
    (hcs : cs < s.blocks.length) (h : EventsWF s) :
    EventsWF (whileWire2 cs ce d e s) := by
  unfold whileWire2
  simp only []
  apply EventsWF_addIncoming _ _ _ (by simp; omega)
  apply EventsWF_setNextBlock _ _ _ (by simp)
  apply EventsWF_setFalseBlock _ _ _ (by simp; omega)
  apply EventsWF_setTrueBlock _ _ _ (by simp; omega)
  apply EventsWF_newBlock _ _ rfl
  obtain ⟨h1, h2, h3⟩ := h
  exact ⟨h1, h2, h3⟩

/-! ## The lowering invariant -/

theorem EventsWF_setLists (s : CompileOptions) (L : Option Expr) (B C : List Nat)
    (h : EventsWF s) :
    EventsWF { s with currentLoop := L, breakBlocks := B, continueBlocks := C } := by
  obtain ⟨h1, h2, h3⟩ := h
  exact ⟨h1, h2, h3⟩

theorem newSimpleBlock_getElem?_lt (s : CompileOptions) (x : Nat)
    (h : x < s.blocks.length) :
    (newSimpleBlock s).2.blocks[x]? = s.blocks[x]? :=
  newBlock_getElem?_lt _ _ _ h

/-- Invariant preservation for the `whileE` case of `teal`. -/
theorem teal_inv_while_aux (c d : Expr)
    (ihc : ∀ (s : CompileOptions) (st en : Nat) (s' : CompileOptions),
      WFFull s → teal c s = .ok ((st, en), s') → TealPost s st en s')
    (ihd : ∀ (s : CompileOptions) (st en : Nat) (s' : CompileOptions),
      WFFull s → teal d s = .ok ((st, en), s') → TealPost s st en s')
    (s : CompileOptions) (st en : Nat) (s' : CompileOptions)
    (hwf : WFFull s) (h : teal (.whileE c d) s = .ok ((st, en), s')) :
    TealPost s st en s' := by
  simp only [teal] at h
  by_cases hs : (exprStr d == exprStr whileSentinel) = true
  · rw [if_pos hs] at h
    exact absurd h (by simp)
  · rw [if_neg hs] at h
    cases hc : teal c s with
    | error err => rw [hc, exceptBind_error] at h; exact absurd h (by simp)
    | ok v =>
        obtain ⟨⟨cS, cE⟩, s1⟩ := v
        rw [hc, exceptBind_ok] at h
        simp only [] at h
        cases hb : teal d { s1 with currentLoop := some (Expr.whileE c d), breakBlocks := [], continueBlocks := [] } with
        | error err => rw [hb, exceptBind_error] at h; exact absurd h (by simp)
        | ok w =>
        obtain ⟨⟨dS, dE⟩, s2⟩ := w
        rw [hb, exceptBind_ok] at h
        simp only [Except.ok.injEq, Prod.mk.injEq] at h
        obtain ⟨⟨rfl, rfl⟩, rfl⟩ := h
        have IH1 := ihc s cS cE s1 hwf hc
        have hwfR : WFFull { s1 with currentLoop := some (Expr.whileE c d), breakBlocks := [], continueBlocks := [] } := by
          refine ⟨⟨?_, ?_, ?_⟩, EventsWF_setLists _ _ _ _ IH1.wf.2⟩
          · intro b hb2
            simp at hb2
          · intro b hb2
            simp at hb2
          · intro b hb2
            simp at hb2
        have IH2 := ihd _ dS dE s2 hwfR hb
        have hL01 : s.blocks.length ≤ s1.blocks.length := IH1.growth
        have hL12 : s1.blocks.length ≤ s2.blocks.length := IH2.growth
        have hcSlb : s.blocks.length ≤ cS := IH1.st_lb
        have hcSub : cS < s1.blocks.length := IH1.st_ub
        have hcElb : s.blocks.length ≤ cE := IH1.en_lb
        have hcEub : cE < s1.blocks.length := IH1.en_ub
        have hdSlb : s1.blocks.length ≤ dS := IH2.st_lb
        have hdSub : dS < s2.blocks.length := IH2.st_ub
        have hdElb : s1.blocks.length ≤ dE := IH2.en_lb
        have hdEub : dE < s2.blocks.length := IH2.en_ub
        have hbrk : ∀ b ∈ s2.breakBlocks, s1.blocks.length ≤ b := by
          intro b hb2
          rcases IH2.breaks_mem b hb2 with hm | hm
          · simp at hm
          · exact hm
        have hcnt : ∀ b ∈ s2.continueBlocks, s1.blocks.length ≤ b := by
          intro b hb2
          rcases IH2.conts_mem b hb2 with hm | hm
          · simp at hm
          · exact hm
        have hbrkUB : ∀ b ∈ s2.breakBlocks, b < s2.blocks.length := IH2.wf.1.1
        have hcntUB : ∀ b ∈ s2.continueBlocks, b < s2.blocks.length := IH2.wf.1.2.1
        have hdisj : ∀ b ∈ s2.breakBlocks, b ∉ s2.continueBlocks := IH2.wf.1.2.2
        have hdEnb : dE ∉ s2.breakBlocks := IH2.en_not_break
        refine ⟨?_, ?_, ?_, ?_, ?_, ?_, ?_, ?_, ?_, ?_, ?_⟩
        · simp only [whileWire2_blocks_length, setNextBlock_blocks_length,
            whileWire1_blocks_length]
          omega
        · exact hcSlb
        · simp only [whileWire2_blocks_length, setNextBlock_blocks_length,
            whileWire1_blocks_length]
          omega
        · simp only [whileWire1_fst]
          omega
        · simp only [whileWire1_fst, whileWire2_blocks_length,
            setNextBlock_blocks_length, whileWire1_blocks_length]
          omega
        · intro bb hbb
          simp only [whileWire2_breakBlocks, setNextBlock_breakBlocks,
            whileWire1_breakBlocks] at hbb
          have := hbrk bb hbb
          exact Or.inr (by omega)
        · intro bb hbb
          simp only [whileWire2_continueBlocks, setNextBlock_continueBlocks,
            whileWire1_continueBlocks] at hbb
          have := hcnt bb hbb
          exact Or.inr (by omega)
        · simp only [whileWire1_fst, whileWire2_breakBlocks,
            setNextBlock_breakBlocks, whileWire1_breakBlocks]
          intro hmem
          exact absurd (hbrkUB _ hmem) (by omega)
        · intro x hx
          rw [getElem?_whileWire2_frame _ _ _ _ _ _ (by omega) (by omega) (by omega)
            (by simp only [whileWire1_fst]; omega)
            (by simp only [setNextBlock_blocks_length, whileWire1_blocks_length]; omega)]
          rw [getElem?_setNextBlock_frame _ _ _ _ (by omega) (by omega)]
          rw [getElem?_whileWire1_frame _ _ _ _
            (by intro hm; exact absurd (hbrk _ hm) (by omega))
            (by intro hm; exact absurd (hcnt _ hm) (by omega))
            (by omega) (by omega)]
          rw [IH2.frame x (by show x < s1.blocks.length; omega)]
          show s1.blocks[x]? = s.blocks[x]?
          rw [IH1.frame x hx]
        · simp only [whileWire2_currentLoop, setNextBlock_currentLoop,
            whileWire1_currentLoop]
          exact IH1.loop_restored
        · refine ⟨?_, ?_⟩
          · apply ListsWF_whileWire2
            apply ListsWF_of_same ((whileWire1 s1.currentLoop dS s2).2) _
              (by simp) (by simp) (by simp)
            exact ListsWF_whileWire1 _ _ _ IH2.wf.1
          · apply EventsWF_whileWire2 _ _ _ _ _
              (by simp only [setNextBlock_blocks_length, whileWire1_blocks_length]; omega)
              (by simp only [whileWire1_fst, setNextBlock_blocks_length,
                whileWire1_blocks_length]; omega)
              (by simp only [setNextBlock_blocks_length, whileWire1_blocks_length]; omega)
            apply EventsWF_setNextBlock _ _ _
              (by simp only [whileWire1_blocks_length]; omega)
            exact EventsWF_whileWire1 _ _ _ (by omega) IH2.wf.2

/-- Invariant preservation for the `whileStepE` case of `teal`. -/
theorem teal_inv_whileStep_aux (c d stp : Expr)
    (ihc : ∀ (s : CompileOptions) (st en : Nat) (s' : CompileOptions),
      WFFull s → teal c s = .ok ((st, en), s') → TealPost s st en s')
    (ihd : ∀ (s : CompileOptions) (st en : Nat) (s' : CompileOptions),
      WFFull s → teal d s = .ok ((st, en), s') → TealPost s st en s')
    (ihstp : ∀ (s : CompileOptions) (st en : Nat) (s' : CompileOptions),
      WFFull s → teal stp s = .ok ((st, en), s') → TealPost s st en s')
    (s : CompileOptions) (st en : Nat) (s' : CompileOptions)
    (hwf : WFFull s) (h : teal (.whileStepE c d stp) s = .ok ((st, en), s')) :
    TealPost s st en s' := by
  simp only [teal] at h
  by_cases hs : (exprStr d == exprStr whileSentinel) = true
  · rw [if_pos hs] at h
    exact absurd h (by simp)
  · rw [if_neg hs] at h
    cases hc : teal c s with
    | error err => rw [hc, exceptBind_error] at h; exact absurd h (by simp)
    | ok v =>
        obtain ⟨⟨cS, cE⟩, s1⟩ := v
        rw [hc, exceptBind_ok] at h
        simp only [] at h
        cases hb : teal d { s1 with currentLoop := some (Expr.whileStepE c d stp), breakBlocks := [], continueBlocks := [] } with
        | error err => rw [hb, exceptBind_error] at h; exact absurd h (by simp)
        | ok w =>
        obtain ⟨⟨dS, dE⟩, s2⟩ := w
        rw [hb, exceptBind_ok] at h
        simp only [] at h
        cases hstep : teal stp (whileWire1 s1.currentLoop dS s2).2 with
        | error err => rw [hstep, exceptBind_error] at h; exact absurd h (by simp)
        | ok u =>
        obtain ⟨⟨sS, sE⟩, s3⟩ := u
        rw [hstep, exceptBind_ok] at h
        simp only [Except.ok.injEq, Prod.mk.injEq] at h
        obtain ⟨⟨rfl, rfl⟩, rfl⟩ := h
        have IH1 := ihc s cS cE s1 hwf hc
        have hwfR : WFFull { s1 with currentLoop := some (Expr.whileStepE c d stp), breakBlocks := [], continueBlocks := [] } := by
          refine ⟨⟨?_, ?_, ?_⟩, EventsWF_setLists _ _ _ _ IH1.wf.2⟩
          · intro b hb2
            simp at hb2
          · intro b hb2
            simp at hb2
          · intro b hb2
            simp at hb2
        have IH2 := ihd _ dS dE s2 hwfR hb
        have hL01 : s.blocks.length ≤ s1.blocks.length := IH1.growth
        have hL12 : s1.blocks.length ≤ s2.blocks.length := IH2.growth
        have hcSlb : s.blocks.length ≤ cS := IH1.st_lb
        have hcSub : cS < s1.blocks.length := IH1.st_ub
        have hcElb : s.blocks.length ≤ cE := IH1.en_lb
        have hcEub : cE < s1.blocks.length := IH1.en_ub
        have hdSlb : s1.blocks.length ≤ dS := IH2.st_lb
        have hdSub : dS < s2.blocks.length := IH2.st_ub
        have hdElb : s1.blocks.length ≤ dE := IH2.en_lb
        have hdEub : dE < s2.blocks.length := IH2.en_ub
        have hbrk : ∀ b ∈ s2.breakBlocks, s1.blocks.length ≤ b := by
          intro b hb2
          rcases IH2.breaks_mem b hb2 with hm | hm
          · simp at hm
          · exact hm
        have hcnt : ∀ b ∈ s2.continueBlocks, s1.blocks.length ≤ b := by
          intro b hb2
          rcases IH2.conts_mem b hb2 with hm | hm
          · simp at hm
          · exact hm
        have hbrkUB : ∀ b ∈ s2.breakBlocks, b < s2.blocks.length := IH2.wf.1.1
        have hcntUB : ∀ b ∈ s2.continueBlocks, b < s2.blocks.length := IH2.wf.1.2.1
        have hdEnb : dE ∉ s2.breakBlocks := IH2.en_not_break
        have hwfW1 : WFFull (whileWire1 s1.currentLoop dS s2).2 :=
          ⟨ListsWF_whileWire1 _ _ _ IH2.wf.1,
            EventsWF_whileWire1 _ _ _ (by omega) IH2.wf.2⟩
        have IH3 := ihstp _ sS sE s3 hwfW1 hstep
        have hL23 : s2.blocks.length + 1 ≤ s3.blocks.length := by
          have := IH3.growth
          simpa using this
        have hsSlb : s2.blocks.length + 1 ≤ sS := by
          have := IH3.st_lb
          simpa using this
        have hsSub : sS < s3.blocks.length := IH3.st_ub
        have hsElb : s2.blocks.length + 1 ≤ sE := by
          have := IH3.en_lb
          simpa using this
        have hsEub : sE < s3.blocks.length := IH3.en_ub
        have hbrk3 : ∀ b ∈ s3.breakBlocks,
            b ∈ s2.breakBlocks ∨ s2.blocks.length + 1 ≤ b := by
          intro b hb3
          rcases IH3.breaks_mem b hb3 with hm | hm
          · exact Or.inl (by simpa using hm)
          · exact Or.inr (by simpa using hm)
        have hcnt3 : ∀ b ∈ s3.continueBlocks,
            b ∈ s2.continueBlocks ∨ s2.blocks.length + 1 ≤ b := by
          intro b hb3
          rcases IH3.conts_mem b hb3 with hm | hm
          · exact Or.inl (by simpa using hm)
          · exact Or.inr (by simpa using hm)
        refine ⟨?_, ?_, ?_, ?_, ?_, ?_, ?_, ?_, ?_, ?_, ?_⟩
        · simp only [whileWire2_blocks_length, setNextBlock_blocks_length]
          omega
        · exact hcSlb
        · simp only [whileWire2_blocks_length, setNextBlock_blocks_length]
          omega
        · simp only [whileWire1_fst]
          omega
        · simp only [whileWire1_fst, whileWire2_blocks_length,
            setNextBlock_blocks_length]
          omega
        · intro bb hbb
          simp only [whileWire2_breakBlocks, setNextBlock_breakBlocks] at hbb
          rcases hbrk3 bb hbb with hm | hm
          · have := hbrk bb hm
            exact Or.inr (by omega)
          · exact Or.inr (by omega)
        · intro bb hbb
          simp only [whileWire2_continueBlocks, setNextBlock_continueBlocks] at hbb
          rcases hcnt3 bb hbb with hm | hm
          · have := hcnt bb hm
            exact Or.inr (by omega)
          · exact Or.inr (by omega)
        · simp only [whileWire1_fst, whileWire2_breakBlocks,
            setNextBlock_breakBlocks]
          intro hmem
          rcases hbrk3 _ hmem with hm | hm
          · exact absurd (hbrkUB _ hm) (by omega)
          · omega
        · intro x hx
          rw [getElem?_whileWire2_frame _ _ _ _ _ _ (by omega) (by omega) (by omega)
            (by simp only [whileWire1_fst]; omega)
            (by simp only [setNextBlock_blocks_length]; omega)]
          rw [getElem?_setNextBlock_frame _ _ _ _ (by omega) (by omega)]
          rw [getElem?_setNextBlock_frame _ _ _ _ (by omega) (by omega)]
          rw [IH3.frame x (by simp only [whileWire1_blocks_length]; omega)]
          rw [getElem?_whileWire1_frame _ _ _ _
            (by intro hm; exact absurd (hbrk _ hm) (by omega))
            (by intro hm; exact absurd (hcnt _ hm) (by omega))
            (by omega) (by omega)]
          rw [IH2.frame x (by show x < s1.blocks.length; omega)]
          show s1.blocks[x]? = s.blocks[x]?
          rw [IH1.frame x hx]
        · simp only [whileWire2_currentLoop, setNextBlock_currentLoop]
          rw [IH3.loop_restored]
          simp only [whileWire1_currentLoop]
          exact IH1.loop_restored
        · refine ⟨?_, ?_⟩
          · apply ListsWF_whileWire2
            apply ListsWF_of_same (setNextBlock s3 sE cS) _
              (by simp) (by simp) (by simp)
            apply ListsWF_of_same s3 _ (by simp) (by simp) (by simp)
            exact IH3.wf.1
          · apply EventsWF_whileWire2 _ _ _ _ _
              (by simp only [setNextBlock_blocks_length]; omega)
              (by simp only [whileWire1_fst, setNextBlock_blocks_length]; omega)
              (by simp only [setNextBlock_blocks_length]; omega)
            apply EventsWF_setNextBlock _ _ _
              (by simp only [setNextBlock_blocks_length]; omega)
            apply EventsWF_setNextBlock _ _ _ (by omega)
            exact IH3.wf.2

/-- Invariant preservation of `teal`: a successful lowering satisfies
`TealPost` whenever the entry state is well-formed. -/
theorem teal_inv : ∀ (e : Expr) (s : CompileOptions) (st en : Nat)
    (s' : CompileOptions), WFFull s → teal e s = .ok ((st, en), s') →
    TealPost s st en s' := by
  intro e
  induction e with
  | int n =>
      intro s st en s' hwf h
      obtain ⟨hwfL, hwfE⟩ := hwf
      simp only [teal, Except.ok.injEq, Prod.mk.injEq] at h
      obtain ⟨⟨rfl, rfl⟩, rfl⟩ := h
      refine ⟨?_, ?_, ?_, ?_, ?_, ?_, ?_, ?_, ?_, ?_, ?_⟩
      · simp
      · simp
      · simp
      · simp
      · simp
      · intro b hb
        exact Or.inl (by simpa using hb)
      · intro b hb
        exact Or.inl (by simpa using hb)
      · intro hmem
        exact absurd (hwfL.1 _ (by simpa using hmem)) (by simp)
      · intro x hx
        exact newBlock_getElem?_lt _ _ _ hx
      · simp
      · refine ⟨⟨?_, ?_, ?_⟩, EventsWF_newBlock _ _ rfl hwfE⟩
        · intro b hb
          simp only [newBlock_breakBlocks] at hb
          simp only [newBlock_blocks_length]
          exact Nat.lt_succ_of_lt (hwfL.1 b hb)
        · intro b hb
          simp only [newBlock_continueBlocks] at hb
          simp only [newBlock_blocks_length]
          exact Nat.lt_succ_of_lt (hwfL.2.1 b hb)
        · intro b hb
          simp only [newBlock_breakBlocks] at hb
          simp only [newBlock_continueBlocks]
          exact hwfL.2.2 b hb
  | seq1 e ih =>
      intro s st en s' hwf h
      exact ih s st en s' hwf h
  | seq2 e1 e2 ih1 ih2 =>
      intro s st en s' hwf h
      simp only [teal] at h
      cases hc : teal e1 s with
      | error err => rw [hc, exceptBind_error] at h; exact absurd h (by simp)
      | ok v =>
          obtain ⟨⟨a, b⟩, sa⟩ := v
          rw [hc, exceptBind_ok] at h
          cases hd : teal e2 sa with
          | error err => rw [hd, exceptBind_error] at h; exact absurd h (by simp)
          | ok w =>
              obtain ⟨⟨c, d⟩, sb⟩ := w
              rw [hd, exceptBind_ok] at h
              simp only [Except.ok.injEq, Prod.mk.injEq] at h
              obtain ⟨⟨rfl, rfl⟩, rfl⟩ := h
              have IH1 := ih1 s a b sa hwf hc
              have IH2 := ih2 sa c d sb IH1.wf hd
              refine ⟨?_, ?_, ?_, ?_, ?_, ?_, ?_, ?_, ?_, ?_, ?_⟩
              · have g1 := IH1.growth
                have g2 := IH2.growth
                simp only [setNextBlock_blocks_length]
                omega
              · exact IH1.st_lb
              · have := IH1.st_ub
                have := IH2.growth
                simp only [setNextBlock_blocks_length]
                omega
              · have := IH1.growth
                have := IH2.en_lb
                omega
              · have := IH2.en_ub
                simp only [setNextBlock_blocks_length]
                omega
              · intro bb hbb
                simp only [setNextBlock_breakBlocks] at hbb
                rcases IH2.breaks_mem bb hbb with hm | hm
                · rcases IH1.breaks_mem bb hm with hm2 | hm2
                  · exact Or.inl hm2
                  · exact Or.inr hm2
                · have := IH1.growth
                  exact Or.inr (by omega)
              · intro bb hbb
                simp only [setNextBlock_continueBlocks] at hbb
                rcases IH2.conts_mem bb hbb with hm | hm
                · rcases IH1.conts_mem bb hm with hm2 | hm2
                  · exact Or.inl hm2
                  · exact Or.inr hm2
                · have := IH1.growth
                  exact Or.inr (by omega)
              · intro hmem
                simp only [setNextBlock_breakBlocks] at hmem
                exact IH2.en_not_break hmem
              · intro x hx
                have hxb : x ≠ b := by
                  have := IH1.en_lb
                  omega
                have hxc : x ≠ c := by
                  have := IH1.growth
                  have := IH2.st_lb
                  omega
                rw [getElem?_setNextBlock_frame _ _ _ _ hxb hxc,
                  IH2.frame x (by have := IH1.growth; omega), IH1.frame x hx]
              · rw [setNextBlock_currentLoop, IH2.loop_restored, IH1.loop_restored]
              · refine ⟨?_, ?_⟩
                · exact ListsWF_of_same _ _ (by simp) (by simp) (by simp) IH2.wf.1
                · exact EventsWF_setNextBlock _ _ _ IH2.st_ub IH2.wf.2
  | breakE =>
      intro s st en s' hwf h
      obtain ⟨hwfL, hwfE⟩ := hwf
      simp only [teal, newSimpleBlock_currentLoop] at h
      by_cases hcl : s.currentLoop.isNone
      · rw [if_pos hcl] at h
        exact absurd h (by simp)
      · rw [if_neg hcl] at h
        simp only [Except.ok.injEq, Prod.mk.injEq] at h
        obtain ⟨⟨rfl, rfl⟩, rfl⟩ := h
        refine ⟨?_, ?_, ?_, ?_, ?_, ?_, ?_, ?_, ?_, ?_, ?_⟩
        · simp only [newSimpleBlock_blocks_length]
          omega
        · simp
        · simp only [newSimpleBlock_fst, newSimpleBlock_blocks_length]
          omega
        · simp
        · simp
        · intro bb hbb
          simp only [newSimpleBlock_breakBlocks] at hbb
          rcases List.mem_append.mp hbb with hm | hm
          · exact Or.inl hm
          · simp only [List.mem_singleton] at hm
            subst hm
            exact Or.inr (by simp)
        · intro bb hbb
          exact Or.inl (by simpa using hbb)
        · intro hmem
          simp only [newSimpleBlock_breakBlocks] at hmem
          rcases List.mem_append.mp hmem with hm | hm
          · exact absurd (hwfL.1 _ hm) (by simp)
          · simp only [List.mem_singleton] at hm
            simp at hm
        · intro x hx
          show ((newSimpleBlock (newSimpleBlock s).2).2).blocks[x]? = s.blocks[x]?
          rw [newSimpleBlock_getElem?_lt _ _ (by simp; omega),
            newSimpleBlock_getElem?_lt _ _ hx]
        · simp
        · refine ⟨⟨?_, ?_, ?_⟩, ?_⟩
          · intro bb hbb
            simp only [newSimpleBlock_breakBlocks] at hbb
            simp only [newSimpleBlock_blocks_length]
            rcases List.mem_append.mp hbb with hm | hm
            · have := hwfL.1 bb hm
              omega
            · simp only [List.mem_singleton] at hm
              subst hm
              simp only [newSimpleBlock_fst]
              omega
          · intro bb hbb
            simp only [newSimpleBlock_continueBlocks] at hbb
            simp only [newSimpleBlock_blocks_length]
            have := hwfL.2.1 bb hbb
            omega
          · intro bb hbb
            simp only [newSimpleBlock_breakBlocks] at hbb
            simp only [newSimpleBlock_continueBlocks]
            rcases List.mem_append.mp hbb with hm | hm
            · exact hwfL.2.2 bb hm
            · simp only [List.mem_singleton] at hm
              subst hm
              intro hmem
              exact absurd (hwfL.2.1 _ hmem) (by simp)
          · exact EventsWF_setLists _ _ _ _
              (EventsWF_newBlock _ _ rfl (EventsWF_newBlock _ _ rfl hwfE))
  | continueE =>
      intro s st en s' hwf h
      obtain ⟨hwfL, hwfE⟩ := hwf
      simp only [teal] at h
      by_cases hcl : s.currentLoop.isNone
      · rw [if_pos hcl] at h
        exact absurd h (by simp)
      · rw [if_neg hcl] at h
        simp only [Except.ok.injEq, Prod.mk.injEq] at h
        obtain ⟨⟨rfl, rfl⟩, rfl⟩ := h
        refine ⟨?_, ?_, ?_, ?_, ?_, ?_, ?_, ?_, ?_, ?_, ?_⟩
        · simp
        · simp
        · simp
        · simp
        · simp
        · intro bb hbb
          exact Or.inl (by simpa using hbb)
        · intro bb hbb
          simp only [newSimpleBlock_continueBlocks] at hbb
          rcases List.mem_append.mp hbb with hm | hm
          · exact Or.inl hm
          · simp only [List.mem_singleton] at hm
            subst hm
            exact Or.inr (by simp)
        · intro hmem
          simp only [newSimpleBlock_breakBlocks] at hmem
          exact absurd (hwfL.1 _ hmem) (by simp)
        · intro x hx
          show ((newSimpleBlock s).2).blocks[x]? = s.blocks[x]?
          rw [newSimpleBlock_getElem?_lt _ _ hx]
        · simp
        · refine ⟨⟨?_, ?_, ?_⟩, ?_⟩
          · intro bb hbb
            simp only [newSimpleBlock_breakBlocks] at hbb
            simp only [newSimpleBlock_blocks_length]
            have := hwfL.1 bb hbb
            omega
          · intro bb hbb
            simp only [newSimpleBlock_continueBlocks] at hbb
            simp only [newSimpleBlock_blocks_length]
            rcases List.mem_append.mp hbb with hm | hm
            · have := hwfL.2.1 bb hm
              omega
            · simp only [List.mem_singleton] at hm
              subst hm
              simp
          · intro bb hbb
            simp only [newSimpleBlock_breakBlocks] at hbb
            simp only [newSimpleBlock_continueBlocks]
            intro hmem
            rcases List.mem_append.mp hmem with hm | hm
            · exact absurd hm (hwfL.2.2 bb hbb)
            · simp only [List.mem_singleton] at hm
              subst hm
              exact absurd (hwfL.1 _ hbb) (by simp)
          · exact EventsWF_setLists _ _ _ _ (EventsWF_newBlock _ _ rfl hwfE)
  | whileE c d ihc ihd =>
      intro s st en s' hwf h
      exact teal_inv_while_aux c d ihc ihd s st en s' hwf h
  | whileStepE c d stp ihc ihd ihstp =>
      intro s st en s' hwf h
      exact teal_inv_whileStep_aux c d stp ihc ihd ihstp s st en s' hwf h

/-! ## Further helpers for the While wiring specification -/

theorem isCondOf_whileWire2_branch (cs ce d e : Nat) (s : CompileOptions) :
    isCondOf (whileWire2 cs ce d e s) s.blocks.length = some true := by
  unfold whileWire2
  simp only [isCondOf_addIncoming, isCondOf_setNextBlock, isCondOf_setFalseBlock,
    isCondOf_setTrueBlock]
  exact isCondOf_newBlock_self _ _

theorem nextOf_congr {s s' : CompileOptions} (x : Nat)
    (h : s'.blocks[x]? = s.blocks[x]?) : nextOf s' x = nextOf s x := by
  unfold nextOf
  rw [h]

theorem opsOf_congr {s s' : CompileOptions} (x : Nat)
    (h : s'.blocks[x]? = s.blocks[x]?) : opsOf s' x = opsOf s x := by
  unfold opsOf
  rw [h]

theorem isCondOf_congr {s s' : CompileOptions} (x : Nat)
    (h : s'.blocks[x]? = s.blocks[x]?) : isCondOf s' x = isCondOf s x := by
  unfold isCondOf
  rw [h]

theorem WFFull_empty : WFFull ({} : CompileOptions) := by
  refine ⟨⟨?_, ?_, ?_⟩, ?_, ?_, ?_⟩
  · intro b hb
    simp at hb
  · intro b hb
    simp at hb
  · intro b hb
    simp at hb
  · intro p hp
    simp at hp
  · intro p hp
    simp at hp
  · intro B T
    show B ∈ incomingOf {} T ↔ _
    unfold incomingOf
    simp

/-- While-loop wiring, no step expression (lines 52-78 of `while_.py`):
given the source's own intermediate lowering results for the condition and
the body, the completed lowering wires every body-accumulated break block
to the fresh empty exit block, wires the conditional block after `condEnd`
with true branch `doStart` and false branch the exit block, wires `doEnd`
back to `condStart`, and returns `(condStart, exit)`. -/
theorem while_wiring_spec_noStep (cond body : Expr) (s : CompileOptions)
    (condStart condEnd doStart doEnd : Nat) (s1 s2 : CompileOptions)
    (hwf : WFFull s)
    (hsent : (exprStr body == exprStr whileSentinel) = false)
    (hc : teal cond s = .ok ((condStart, condEnd), s1))
    (hb : teal body { s1 with currentLoop := some (Expr.whileE cond body), breakBlocks := [], continueBlocks := [] } = .ok ((doStart, doEnd), s2)) :
    ∃ s', teal (Expr.whileE cond body) s = .ok ((condStart, s2.blocks.length), s') ∧
      (∀ b ∈ s2.breakBlocks, nextOf s' b = some s2.blocks.length) ∧
      trueOf s' (s2.blocks.length + 1) = some doStart ∧
      falseOf s' (s2.blocks.length + 1) = some s2.blocks.length ∧
      isCondOf s' (s2.blocks.length + 1) = some true ∧
      nextOf s' condEnd = some (s2.blocks.length + 1) ∧
      nextOf s' doEnd = some condStart ∧
      opsOf s' s2.blocks.length = some [] ∧
      isCondOf s' s2.blocks.length = some false ∧
      nextOf s' s2.blocks.length = none := by
  have IH1 := teal_inv cond s condStart condEnd s1 hwf hc
  have hwfR : WFFull { s1 with currentLoop := some (Expr.whileE cond body), breakBlocks := [], continueBlocks := [] } := by
    refine ⟨⟨?_, ?_, ?_⟩, EventsWF_setLists _ _ _ _ IH1.wf.2⟩
    · intro b hb2
      simp at hb2
    · intro b hb2
      simp at hb2
    · intro b hb2
      simp at hb2
  have IH2 := teal_inv body _ doStart doEnd s2 hwfR hb
  have hL01 : s.blocks.length ≤ s1.blocks.length := IH1.growth
  have hL12 : s1.blocks.length ≤ s2.blocks.length := IH2.growth
  have hcSub : condStart < s1.blocks.length := IH1.st_ub
  have hcEub : condEnd < s1.blocks.length := IH1.en_ub
  have hdSlb : s1.blocks.length ≤ doStart := IH2.st_lb
  have hdSub : doStart < s2.blocks.length := IH2.st_ub
  have hdElb : s1.blocks.length ≤ doEnd := IH2.en_lb
  have hdEub : doEnd < s2.blocks.length := IH2.en_ub
  have hbrk : ∀ b ∈ s2.breakBlocks, s1.blocks.length ≤ b := by
    intro b hb2
    rcases IH2.breaks_mem b hb2 with hm | hm
    · simp at hm
    · exact hm
  have hcnt : ∀ b ∈ s2.continueBlocks, s1.blocks.length ≤ b := by
    intro b hb2
    rcases IH2.conts_mem b hb2 with hm | hm
    · simp at hm
    · exact hm
  have hbrkUB : ∀ b ∈ s2.breakBlocks, b < s2.blocks.length := IH2.wf.1.1
  have hcntUB : ∀ b ∈ s2.continueBlocks, b < s2.blocks.length := IH2.wf.1.2.1
  have hdisj : ∀ b ∈ s2.breakBlocks, b ∉ s2.continueBlocks := IH2.wf.1.2.2
  have hdEnb : doEnd ∉ s2.breakBlocks := IH2.en_not_break
  have heq : teal (Expr.whileE cond body) s =
      .ok ((condStart, (whileWire1 s1.currentLoop doStart s2).1),
        whileWire2 condStart condEnd doStart
          (whileWire1 s1.currentLoop doStart s2).1
          (setNextBlock (whileWire1 s1.currentLoop doStart s2).2 doEnd condStart)) := by
    simp only [teal]
    rw [if_neg (by simp [hsent])]
    rw [hc, exceptBind_ok]
    simp only []
    rw [hb, exceptBind_ok]
  rw [whileWire1_fst] at heq
  refine ⟨_, heq, ?_, ?_, ?_, ?_, ?_, ?_, ?_, ?_, ?_⟩
  · intro b hb2
    rw [nextOf_whileWire2_lt_ne _ _ _ _ _ _ (by have := hbrk b hb2; omega)
      (by simp only [setNextBlock_blocks_length, whileWire1_blocks_length]
          have := hbrkUB b hb2; omega)]
    rw [nextOf_setNextBlock_ne _ _ _ _ (by intro hbe; exact hdEnb (hbe ▸ hb2))]
    exact nextOf_whileWire1_break _ _ _ _ hb2 (hbrkUB b hb2) (hdisj b hb2)
  · rw [show s2.blocks.length + 1 =
      (setNextBlock (whileWire1 s1.currentLoop doStart s2).2 doEnd condStart).blocks.length
      from by simp]
    exact trueOf_whileWire2_branch _ _ _ _ _
  · rw [show s2.blocks.length + 1 =
      (setNextBlock (whileWire1 s1.currentLoop doStart s2).2 doEnd condStart).blocks.length
      from by simp]
    exact falseOf_whileWire2_branch _ _ _ _ _
  · rw [show s2.blocks.length + 1 =
      (setNextBlock (whileWire1 s1.currentLoop doStart s2).2 doEnd condStart).blocks.length
      from by simp]
    exact isCondOf_whileWire2_branch _ _ _ _ _
  · rw [show some (s2.blocks.length + 1) =
      some ((setNextBlock (whileWire1 s1.currentLoop doStart s2).2 doEnd condStart).blocks.length)
      from by simp]
    exact nextOf_whileWire2_condEnd _ _ _ _ _ (by simp; omega)
  · rw [nextOf_whileWire2_lt_ne _ _ _ _ _ _ (by omega)
      (by simp only [setNextBlock_blocks_length, whileWire1_blocks_length]; omega)]
    exact nextOf_setNextBlock_self _ _ _ (by simp only [whileWire1_blocks_length]; omega)
  · rw [opsOf_whileWire2_lt _ _ _ _ _ _
      (by simp only [setNextBlock_blocks_length, whileWire1_blocks_length]; omega)]
    rw [opsOf_setNextBlock]
    exact opsOf_whileWire1_endB _ _ _
  · rw [isCondOf_whileWire2_lt _ _ _ _ _ _
      (by simp only [setNextBlock_blocks_length, whileWire1_blocks_length]; omega)]
    rw [isCondOf_setNextBlock]
    exact isCondOf_whileWire1_endB _ _ _
  · rw [nextOf_whileWire2_lt_ne _ _ _ _ _ _ (by omega)
      (by simp only [setNextBlock_blocks_length, whileWire1_blocks_length]; omega)]
    rw [nextOf_setNextBlock_ne _ _ _ _ (by omega)]
    exact nextOf_whileWire1_endB _ _ _ hbrkUB hcntUB

/-- While-loop wiring with a step expression present (lines 62-65 of
`while_.py`): the loop-back edge runs `doEnd → stepStart` and
`stepEnd → condStart` instead of `doEnd → condStart`; everything else is
wired as in the no-step case. -/
theorem while_wiring_spec_step (cond body stepE : Expr) (s : CompileOptions)
    (condStart condEnd doStart doEnd stepStart stepEnd : Nat)
    (s1 s2 s3 : CompileOptions)
    (hwf : WFFull s)
    (hsent : (exprStr body == exprStr whileSentinel) = false)
    (hc : teal cond s = .ok ((condStart, condEnd), s1))
    (hb : teal body { s1 with currentLoop := some (Expr.whileStepE cond body stepE), breakBlocks := [], continueBlocks := [] } = .ok ((doStart, doEnd), s2))
    (hstep : teal stepE (whileWire1 s1.currentLoop doStart s2).2 =
      .ok ((stepStart, stepEnd), s3)) :
    ∃ s', teal (Expr.whileStepE cond body stepE) s =
        .ok ((condStart, s2.blocks.length), s') ∧
      (∀ b ∈ s2.breakBlocks, nextOf s' b = some s2.blocks.length) ∧
      trueOf s' s3.blocks.length = some doStart ∧
      falseOf s' s3.blocks.length = some s2.blocks.length ∧
      isCondOf s' s3.blocks.length = some true ∧
      nextOf s' condEnd = some s3.blocks.length ∧
      nextOf s' doEnd = some stepStart ∧
      nextOf s' stepEnd = some condStart ∧
      opsOf s' s2.blocks.length = some [] ∧
      isCondOf s' s2.blocks.length = some false ∧
      nextOf s' s2.blocks.length = none := by
  have IH1 := teal_inv cond s condStart condEnd s1 hwf hc
  have hwfR : WFFull { s1 with currentLoop := some (Expr.whileStepE cond body stepE), breakBlocks := [], continueBlocks := [] } := by
    refine ⟨⟨?_, ?_, ?_⟩, EventsWF_setLists _ _ _ _ IH1.wf.2⟩
    · intro b hb2
      simp at hb2
    · intro b hb2
      simp at hb2
    · intro b hb2
      simp at hb2
  have IH2 := teal_inv body _ doStart doEnd s2 hwfR hb
  have hL01 : s.blocks.length ≤ s1.blocks.length := IH1.growth
  have hL12 : s1.blocks.length ≤ s2.blocks.length := IH2.growth
  have hcSub : condStart < s1.blocks.length := IH1.st_ub
  have hcEub : condEnd < s1.blocks.length := IH1.en_ub
  have hdSlb : s1.blocks.length ≤ doStart := IH2.st_lb
  have hdSub : doStart < s2.blocks.length := IH2.st_ub
  have hdElb : s1.blocks.length ≤ doEnd := IH2.en_lb
  have hdEub : doEnd < s2.blocks.length := IH2.en_ub
  have hbrk : ∀ b ∈ s2.breakBlocks, s1.blocks.length ≤ b := by
    intro b hb2
    rcases IH2.breaks_mem b hb2 with hm | hm
    · simp at hm
    · exact hm
  have hcnt : ∀ b ∈ s2.continueBlocks, s1.blocks.length ≤ b := by
    intro b hb2
    rcases IH2.conts_mem b hb2 with hm | hm
    · simp at hm
    · exact hm
  have hbrkUB : ∀ b ∈ s2.breakBlocks, b < s2.blocks.length := IH2.wf.1.1
  have hcntUB : ∀ b ∈ s2.continueBlocks, b < s2.blocks.length := IH2.wf.1.2.1
  have hdisj : ∀ b ∈ s2.breakBlocks, b ∉ s2.continueBlocks := IH2.wf.1.2.2
  have hdEnb : doEnd ∉ s2.breakBlocks := IH2.en_not_break
  have hwfW1 : WFFull (whileWire1 s1.currentLoop doStart s2).2 :=
    ⟨ListsWF_whileWire1 _ _ _ IH2.wf.1,
      EventsWF_whileWire1 _ _ _ (by omega) IH2.wf.2⟩
  have IH3 := teal_inv stepE _ stepStart stepEnd s3 hwfW1 hstep
  have hL23 : s2.blocks.length + 1 ≤ s3.blocks.length := by
    have := IH3.growth
    simpa using this
  have hsSlb : s2.blocks.length + 1 ≤ stepStart := by
    have := IH3.st_lb
    simpa using this
  have hsSub : stepStart < s3.blocks.length := IH3.st_ub
  have hsElb : s2.blocks.length + 1 ≤ stepEnd := by
    have := IH3.en_lb
    simpa using this
  have hsEub : stepEnd < s3.blocks.length := IH3.en_ub
  have heq : teal (Expr.whileStepE cond body stepE) s =
      .ok ((condStart, (whileWire1 s1.currentLoop doStart s2).1),
        whileWire2 condStart condEnd doStart
          (whileWire1 s1.currentLoop doStart s2).1
          (setNextBlock (setNextBlock s3 stepEnd condStart) doEnd stepStart)) := by
    simp only [teal]
    rw [if_neg (by simp [hsent])]
    rw [hc, exceptBind_ok]
    simp only []
    rw [hb, exceptBind_ok]
    simp only []
    rw [hstep, exceptBind_ok]
  rw [whileWire1_fst] at heq
  refine ⟨_, heq, ?_, ?_, ?_, ?_, ?_, ?_, ?_, ?_, ?_, ?_⟩
  · intro b hb2
    rw [nextOf_whileWire2_lt_ne _ _ _ _ _ _ (by have := hbrk b hb2; omega)
      (by simp only [setNextBlock_blocks_length]
          have := hbrkUB b hb2; omega)]
    rw [nextOf_setNextBlock_ne _ _ _ _ (by intro hbe; exact hdEnb (hbe ▸ hb2))]
    rw [nextOf_setNextBlock_ne _ _ _ _ (by have := hbrkUB b hb2; omega)]
    rw [nextOf_congr b (IH3.frame b
      (by simp only [whileWire1_blocks_length]; have := hbrkUB b hb2; omega))]
    exact nextOf_whileWire1_break _ _ _ _ hb2 (hbrkUB b hb2) (hdisj b hb2)
  · rw [show s3.blocks.length =
      (setNextBlock (setNextBlock s3 stepEnd condStart) doEnd stepStart).blocks.length
      from by simp]
    exact trueOf_whileWire2_branch _ _ _ _ _
  · rw [show s3.blocks.length =
      (setNextBlock (setNextBlock s3 stepEnd condStart) doEnd stepStart).blocks.length
      from by simp]
    exact falseOf_whileWire2_branch _ _ _ _ _
  · rw [show s3.blocks.length =
      (setNextBlock (setNextBlock s3 stepEnd condStart) doEnd stepStart).blocks.length
      from by simp]
    exact isCondOf_whileWire2_branch _ _ _ _ _
  · rw [show some s3.blocks.length =
      some ((setNextBlock (setNextBlock s3 stepEnd condStart) doEnd stepStart).blocks.length)
      from by simp]
    exact nextOf_whileWire2_condEnd _ _ _ _ _ (by simp; omega)
  · rw [nextOf_whileWire2_lt_ne _ _ _ _ _ _ (by omega)
      (by simp only [setNextBlock_blocks_length]; omega)]
    exact nextOf_setNextBlock_self _ _ _ (by simp only [setNextBlock_blocks_length]; omega)
  · rw [nextOf_whileWire2_lt_ne _ _ _ _ _ _ (by omega)
      (by simp only [setNextBlock_blocks_length]; omega)]
    rw [nextOf_setNextBlock_ne _ _ _ _ (by omega)]
    exact nextOf_setNextBlock_self _ _ _ (by omega)
  · rw [opsOf_whileWire2_lt _ _ _ _ _ _
      (by simp only [setNextBlock_blocks_length]; omega)]
    rw [opsOf_setNextBlock, opsOf_setNextBlock]
    rw [opsOf_congr _ (IH3.frame s2.blocks.length
      (by simp only [whileWire1_blocks_length]; omega))]
    exact opsOf_whileWire1_endB _ _ _
  · rw [isCondOf_whileWire2_lt _ _ _ _ _ _
      (by simp only [setNextBlock_blocks_length]; omega)]
    rw [isCondOf_setNextBlock, isCondOf_setNextBlock]
    rw [isCondOf_congr _ (IH3.frame s2.blocks.length
      (by simp only [whileWire1_blocks_length]; omega))]
    exact isCondOf_whileWire1_endB _ _ _
  · rw [nextOf_whileWire2_lt_ne _ _ _ _ _ _ (by omega)
      (by simp only [setNextBlock_blocks_length]; omega)]
    rw [nextOf_setNextBlock_ne _ _ _ _ (by omega)]
    rw [nextOf_setNextBlock_ne _ _ _ _ (by omega)]
    rw [nextOf_congr _ (IH3.frame s2.blocks.length
      (by simp only [whileWire1_blocks_length]; omega))]
    exact nextOf_whileWire1_endB _ _ _ hbrkUB hcntUB

/-! ## Claims -/

/-- C1: the claim states that every continue-block accumulated while
lowering a While body is wired to the loop's condition-start block
(`condStart`).  The code at `while_.py` lines 59-60 instead executes
`block.setNext(doStart)`, wiring every continue block to the body-start
block.  Evaluated at `While(Int(1)).Do(Seq([Continue(), Int(7)]))`:
lowering succeeds with `(condStart, end) = (0, 3)`, the one accumulated
continue block is block 1, and its next-target is block 1 (= `doStart`),
not block 0 (= `condStart`). -/
theorem c1_continue_wired_to_body_start :
    resultOf (teal (Expr.whileE (.int 1) (.seq2 .continueE (.int 7))) {}) = some (0, 3) ∧
    (stateOf (teal (Expr.whileE (.int 1) (.seq2 .continueE (.int 7))) {})).continueBlocks = [1] ∧
    nextOf (stateOf (teal (Expr.whileE (.int 1) (.seq2 .continueE (.int 7))) {})) 1 = some 1 ∧
    (some 1 : Option Nat) ≠ some 0 := by
  refine ⟨by decide, by decide, by decide, by decide⟩

/-- C2: the claim states that the enclosing loop's break/continue lists
are saved before an inner loop's body is lowered and restored afterward.
The code at `while_.py` lines 46-48 resets them without saving (its own
TODO admits the omission).  Evaluated at
`While(Int(1)).Do(Seq([Break(), While(Int(1)).Do(Seq([Break(), Int(5)]))]))`:
the outer break block (block 1) is lost — it is never wired (next-target
stays `none`) and is absent from the final accumulated list `[4]` — while
the inner loop's break block (block 4) ends up wired to the *outer*
loop's exit block 9, although the inner loop's own exit is block 7 (the
false branch of the inner conditional block 8). -/
theorem c2_loop_lists_not_restored :
    resultOf (teal (Expr.whileE (.int 1) (.seq2 .breakE
      (Expr.whileE (.int 1) (.seq2 .breakE (.int 5))))) {}) = some (0, 9) ∧
    (stateOf (teal (Expr.whileE (.int 1) (.seq2 .breakE
      (Expr.whileE (.int 1) (.seq2 .breakE (.int 5))))) {})).breakBlocks = [4] ∧
    nextOf (stateOf (teal (Expr.whileE (.int 1) (.seq2 .breakE
      (Expr.whileE (.int 1) (.seq2 .breakE (.int 5))))) {})) 1 = none ∧
    nextOf (stateOf (teal (Expr.whileE (.int 1) (.seq2 .breakE
      (Expr.whileE (.int 1) (.seq2 .breakE (.int 5))))) {})) 4 = some 9 ∧
    trueOf (stateOf (teal (Expr.whileE (.int 1) (.seq2 .breakE
      (Expr.whileE (.int 1) (.seq2 .breakE (.int 5))))) {})) 8 = some 4 ∧
    falseOf (stateOf (teal (Expr.whileE (.int 1) (.seq2 .breakE
      (Expr.whileE (.int 1) (.seq2 .breakE (.int 5))))) {})) 8 = some 7 ∧
    (9 : Nat) ≠ 7 := by
  refine ⟨by decide, by decide, by decide, by decide, by decide, by decide, by decide⟩

/-- C3: the claim states that no process-global mutable state (module
flags, class-level state, configuration read from the file system) can
make two runs on the same input differ.  `NatalStackFrame` keeps the
class-level mutable flags `_no_stackframes`/`_debug`
(`stack_frame.py` lines 229-230), initialised from the `pyteal.ini` file
and mutated by `sourcemapping_off_context`.  Running the
`NatalStackFrame` constructor twice on the identical Python stack — once
with the flags as loaded from an enabling `pyteal.ini` and once while
`sourcemapping_off_context` is active — produces different frame lists,
so the frames attached to every constructed `Expr` (and hence the
source-map/annotation output of `Router._build_impl`) depend on
process-global mutable state. -/
theorem c3_global_flags_change_output :
    natalStackFrameInit (natalClassInit (some ⟨true, false⟩))
      [⟨"pyteal/stack_frame.py", ["        full_stack = stack()"]⟩,
       ⟨"pyteal/ast/int.py", ["        super().__init__()"]⟩,
       ⟨"pyteal/ast/int.py", ["    Int(0)"]⟩,
       ⟨"contract.py", ["x = Int(0)"]⟩] =
      some [⟨"contract.py", ["x = Int(0)"]⟩] ∧
    natalStackFrameInit (sourcemapping_off_enter (natalClassInit (some ⟨true, false⟩)))
      [⟨"pyteal/stack_frame.py", ["        full_stack = stack()"]⟩,
       ⟨"pyteal/ast/int.py", ["        super().__init__()"]⟩,
       ⟨"pyteal/ast/int.py", ["    Int(0)"]⟩,
       ⟨"contract.py", ["x = Int(0)"]⟩] = some [] ∧
    some [(⟨"contract.py", ["x = Int(0)"]⟩ : FrameInfo)] ≠ some [] := by
  refine ⟨by decide, by decide, by decide⟩

/-- C4: for every While loop whose lowering completes, every
body-accumulated break block is wired to the loop's single empty exit
block, a conditional block is wired after `condEnd` with true branch
`doStart` and false branch the exit block, `doEnd` is wired to
`condStart` when no step expression is present (otherwise
`doEnd → stepStart` and `stepEnd → condStart`), and the construct returns
`(condStart, end)`. -/
theorem c4_while_wiring :
    (∀ (cond body : Expr) (s : CompileOptions)
      (condStart condEnd doStart doEnd : Nat) (s1 s2 : CompileOptions),
      WFFull s →
      (exprStr body == exprStr whileSentinel) = false →
      teal cond s = .ok ((condStart, condEnd), s1) →
      teal body { s1 with currentLoop := some (Expr.whileE cond body), breakBlocks := [], continueBlocks := [] } = .ok ((doStart, doEnd), s2) →
      ∃ s', teal (Expr.whileE cond body) s = .ok ((condStart, s2.blocks.length), s') ∧
        (∀ b ∈ s2.breakBlocks, nextOf s' b = some s2.blocks.length) ∧
        trueOf s' (s2.blocks.length + 1) = some doStart ∧
        falseOf s' (s2.blocks.length + 1) = some s2.blocks.length ∧
        isCondOf s' (s2.blocks.length + 1) = some true ∧
        nextOf s' condEnd = some (s2.blocks.length + 1) ∧
        nextOf s' doEnd = some condStart ∧
        opsOf s' s2.blocks.length = some [] ∧
        isCondOf s' s2.blocks.length = some false ∧
        nextOf s' s2.blocks.length = none) ∧
    (∀ (cond body stepE : Expr) (s : CompileOptions)
      (condStart condEnd doStart doEnd stepStart stepEnd : Nat)
      (s1 s2 s3 : CompileOptions),
      WFFull s →
      (exprStr body == exprStr whileSentinel) = false →
      teal cond s = .ok ((condStart, condEnd), s1) →
      teal body { s1 with currentLoop := some (Expr.whileStepE cond body stepE), breakBlocks := [], continueBlocks := [] } = .ok ((doStart, doEnd), s2) →
      teal stepE (whileWire1 s1.currentLoop doStart s2).2 =
        .ok ((stepStart, stepEnd), s3) →
      ∃ s', teal (Expr.whileStepE cond body stepE) s =
          .ok ((condStart, s2.blocks.length), s') ∧
        (∀ b ∈ s2.breakBlocks, nextOf s' b = some s2.blocks.length) ∧
        trueOf s' s3.blocks.length = some doStart ∧
        falseOf s' s3.blocks.length = some s2.blocks.length ∧
        isCondOf s' s3.blocks.length = some true ∧
        nextOf s' condEnd = some s3.blocks.length ∧
        nextOf s' doEnd = some stepStart ∧
        nextOf s' stepEnd = some condStart ∧
        opsOf s' s2.blocks.length = some [] ∧
        isCondOf s' s2.blocks.length = some false ∧
        nextOf s' s2.blocks.length = none) :=
  ⟨while_wiring_spec_noStep, while_wiring_spec_step⟩

/-- Witness for C4: both parts applied at concrete loops
(`While(Int(1)).Do(Seq([Break(), Int(7)]))` and the step variant
`While(Int(1), step Int(3)).Do(Seq([Int(2)]))`), with every hypothesis
discharged by `decide`/`rfl`. -/
theorem c4_while_wiring_witness :
    (∃ s', teal (Expr.whileE (.int 1) (.seq2 .breakE (.int 7))) {} =
        .ok ((0, 4), s') ∧
      (∀ b ∈ ([1] : List Nat), nextOf s' b = some 4) ∧
      trueOf s' 5 = some 1 ∧
      falseOf s' 5 = some 4 ∧
      isCondOf s' 5 = some true ∧
      nextOf s' 0 = some 5 ∧
      nextOf s' 3 = some 0 ∧
      opsOf s' 4 = some [] ∧
      isCondOf s' 4 = some false ∧
      nextOf s' 4 = none) ∧
    (∃ s', teal (Expr.whileStepE (.int 1) (.seq1 (.int 2)) (.int 3)) {} =
        .ok ((0, 2), s') ∧
      (∀ b ∈ ([] : List Nat), nextOf s' b = some 2) ∧
      trueOf s' 4 = some 1 ∧
      falseOf s' 4 = some 2 ∧
      isCondOf s' 4 = some true ∧
      nextOf s' 0 = some 4 ∧
      nextOf s' 1 = some 3 ∧
      nextOf s' 3 = some 0 ∧
      opsOf s' 2 = some [] ∧
      isCondOf s' 2 = some false ∧
      nextOf s' 2 = none) :=
  ⟨c4_while_wiring.1 (.int 1) (.seq2 .breakE (.int 7)) {} 0 0 1 3 _ _
      WFFull_empty (by decide) rfl rfl,
    c4_while_wiring.2 (.int 1) (.seq1 (.int 2)) (.int 3) {} 0 0 1 1 3 3 _ _ _
      WFFull_empty (by decide) rfl rfl rfl⟩

/-- C5: the claim states that lowering `Break` with no enclosing loop
fails with a compile-time error naming the misuse.  The code
(`break_.py` lines 17-18) does fail — never a silent no-op — but the
raise is `TealCompileError(...)` with the literal Python `Ellipsis` as
its argument, so the error carries no message at all, let alone one
naming the misuse (and `break_.py` does not even import
`TealCompileError` or `TealSimpleBlock`, so CPython would in fact raise
`NameError` first). -/
theorem c5_break_outside_loop_placeholder_error :
    teal Expr.breakE {} = .error (.tealCompileError none) ∧
    ∀ m : String, (TealErr.tealCompileError none) ≠ .tealCompileError (some m) := by
  refine ⟨rfl, ?_⟩
  intro m h
  injection h with h2
  exact Option.noConfusion h2

/-- C6 counterexample: the claim states that `Break` lowering creates a
single empty block and returns it as both start and end.  Lowered inside
a loop from the empty arena, `Break` creates *two* blocks (arena size 2),
appends only the first to the break list, and returns the distinct pair
`(0, 1)`. -/
theorem c6_break_counterexample :
    resultOf (teal Expr.breakE
      { currentLoop := some (Expr.whileE (Expr.int 1) (Expr.seq1 (Expr.int 1))) }) =
      some (0, 1) ∧
    (stateOf (teal Expr.breakE
      { currentLoop := some (Expr.whileE (Expr.int 1) (Expr.seq1 (Expr.int 1))) })).blocks.length = 2 ∧
    (stateOf (teal Expr.breakE
      { currentLoop := some (Expr.whileE (Expr.int 1) (Expr.seq1 (Expr.int 1))) })).breakBlocks = [0] ∧
    (0 : Nat) ≠ 1 := by
  refine ⟨by decide, by decide, by decide, by decide⟩

/-- C6 (amended): for every Break expression lowered inside a loop,
lowering creates *two* fresh empty blocks, appends the first to the
enclosing loop's break list, and returns the pair `(first, second)` as
the start and end of the expression — with start and end distinct. -/
theorem c6_break_returns_two_blocks (s : CompileOptions) (L : Expr)
    (h : s.currentLoop = some L) :
    teal Expr.breakE s = .ok ((s.blocks.length, s.blocks.length + 1),
      { s with blocks := s.blocks ++ [{}, {}], breakBlocks := s.breakBlocks ++ [s.blocks.length] }) ∧
    s.blocks.length ≠ s.blocks.length + 1 := by
  constructor
  · simp only [teal, newSimpleBlock_currentLoop]
    rw [if_neg (by simp [h])]
    simp [newSimpleBlock, newBlock]
  · omega

/-- Witness for C6's amended theorem at a concrete in-loop state. -/
theorem c6_break_witness :
    teal Expr.breakE { currentLoop := some (Expr.int 9) } =
      .ok ((0, 1), { currentLoop := some (Expr.int 9), blocks := [({} : TealBlock), {}], breakBlocks := [0] }) ∧
    (0 : Nat) ≠ 1 :=
  c6_break_returns_two_blocks { currentLoop := some (Expr.int 9) } (Expr.int 9) rfl

/-- C7 counterexample: the claim states that a block `B` appears in `T`'s
incoming-edge set only if some routing call (set-next/set-true/set-false)
made `T` a successor of `B`.  After lowering
`While(Int(1)).Do(Seq([Int(5), Int(7)]))`, the body-start block 1 is in
the incoming set of the condition-start block 0, yet no routing call was
made with that pair — the ghost routing log contains no `(1, 0)` — and
block 1's only successor is block 2: the membership comes from the bare
`condStart.addIncoming(doStart)` call at `while_.py` line 74. -/
theorem c7_incoming_counterexample :
    (1 : Nat) ∈ incomingOf
      (stateOf (teal (Expr.whileE (.int 1) (.seq2 (.int 5) (.int 7))) {})) 0 ∧
    (1, 0) ∉ (stateOf (teal (Expr.whileE (.int 1) (.seq2 (.int 5) (.int 7))) {})).routingEvents ∧
    nextOf (stateOf (teal (Expr.whileE (.int 1) (.seq2 (.int 5) (.int 7))) {})) 1 = some 2 ∧
    trueOf (stateOf (teal (Expr.whileE (.int 1) (.seq2 (.int 5) (.int 7))) {})) 1 = none ∧
    falseOf (stateOf (teal (Expr.whileE (.int 1) (.seq2 (.int 5) (.int 7))) {})) 1 = none ∧
    (1, 0) ∈ (stateOf (teal (Expr.whileE (.int 1) (.seq2 (.int 5) (.int 7))) {})).directIncomingEvents := by
  refine ⟨by decide, by decide, by decide, by decide, by decide, by decide⟩

/-- C7 (amended): after any lowering completes, `B` appears in `T`'s
incoming-edge set if and only if some routing call registered the pair
*or* the one bare add-incoming call of While lowering
(`condStart.addIncoming(doStart)`, `while_.py` line 74) did; and routing
calls grow the incoming-edge set of the target block only. -/
theorem c7_incoming_iff_amended :
    (∀ (e : Expr) (res : Nat × Nat) (s' : CompileOptions),
      teal e {} = .ok (res, s') →
      ∀ B T : Nat, B ∈ incomingOf s' T ↔
        ((B, T) ∈ s'.routingEvents ∨ (B, T) ∈ s'.directIncomingEvents)) ∧
    (∀ (s : CompileOptions) (b t x : Nat), x ≠ t →
      incomingOf (setNextBlock s b t) x = incomingOf s x ∧
      incomingOf (setTrueBlock s b t) x = incomingOf s x ∧
      incomingOf (setFalseBlock s b t) x = incomingOf s x) := by
  constructor
  · intro e res s' h B T
    obtain ⟨st, en⟩ := res
    exact ((teal_inv e {} st en s' WFFull_empty h).wf.2).2.2 B T
  · intro s b t x hx
    exact ⟨incomingOf_setNextBlock_ne _ _ _ _ hx,
      incomingOf_setTrueBlock_ne _ _ _ _ hx,
      incomingOf_setFalseBlock_ne _ _ _ _ hx⟩

/-- Witness for C7's amended theorem at a concrete lowering and a
concrete routing call. -/
theorem c7_incoming_witness :
    ((1 : Nat) ∈ incomingOf
        (stateOf (teal (Expr.whileE (.int 1) (.seq2 (.int 5) (.int 7))) {})) 0 ↔
      ((1, 0) ∈ (stateOf (teal (Expr.whileE (.int 1) (.seq2 (.int 5) (.int 7))) {})).routingEvents ∨
       (1, 0) ∈ (stateOf (teal (Expr.whileE (.int 1) (.seq2 (.int 5) (.int 7))) {})).directIncomingEvents)) ∧
    incomingOf (setNextBlock {} 0 5) 3 = incomingOf ({} : CompileOptions) 3 :=
  ⟨c7_incoming_iff_amended.1 (Expr.whileE (.int 1) (.seq2 (.int 5) (.int 7)))
      (0, 3) _ rfl 1 0,
    (c7_incoming_iff_amended.2 {} 0 5 3 (by decide)).1⟩

/-- C8: for every While loop whose body was never supplied, lowering
raises the compile-time error `"While expression must have a doBlock"`
before any lowering work happens, and no block graph is produced
(the failure aborts with no state).  The never-supplied body is the
sentinel `Seq([Int(0)])` installed by `While.__init__`, detected by the
string comparison at `while_.py` line 35; the check precedes the
condition lowering, so it holds for every condition and every entry
state, in both the plain and the step variant. -/
theorem c8_empty_body_rejected :
    (∀ (cond : Expr) (s : CompileOptions),
      teal (Expr.whileE cond (Expr.seq1 (Expr.int 0))) s =
        .error (.tealCompileError (some "While expression must have a doBlock"))) ∧
    (∀ (cond stp : Expr) (s : CompileOptions),
      teal (Expr.whileStepE cond (Expr.seq1 (Expr.int 0)) stp) s =
        .error (.tealCompileError (some "While expression must have a doBlock"))) := by
  constructor
  · intro cond s
    rfl
  · intro cond stp s
    rfl

/-- C9: registering a method whose signature or whose selector hash
equals that of an already-registered method raises a `TealInputError`,
and the router state is returned unchanged — the duplicate is never
silently accepted or overwritten (`router.py` lines 646-652). -/
theorem c9_duplicate_registration_rejected
    (checksum4 : String → Nat) (r : Router) (mc : HandlerArg)
    (cfg : Option MethodConfig) (desc : Option String)
    (habi : mc.is_abi_return_subroutine = true)
    (hnever : (cfg.getD { no_op := .CALL }).is_never = false)
    (hdup : (r.method_sig_to_selector.lookup mc.method_signature).isSome ∨
      (r.method_selector_to_sig.lookup (checksum4 mc.method_signature)).isSome) :
    ∃ m, Router.add_method_handler checksum4 r mc cfg desc =
      (.error (.tealInputError m), r) := by
  simp only [Router.add_method_handler, habi, Bool.not_true]
  rw [if_neg (by simp)]
  rw [if_neg (by simp [hnever])]
  by_cases hsig : (r.method_sig_to_selector.lookup mc.method_signature).isSome
  · rw [if_pos hsig]
    exact ⟨_, rfl⟩
  · rw [if_neg hsig]
    have hsel : (r.method_selector_to_sig.lookup (checksum4 mc.method_signature)).isSome := by
      rcases hdup with hm | hm
      · exact absurd hm hsig
      · exact hm
    obtain ⟨prior, hprior⟩ := Option.isSome_iff_exists.mp hsel
    rw [hprior]
    exact ⟨_, rfl⟩

/-- Witness for C9 at a concrete router holding one registered method and
a second registration with the same signature. -/
theorem c9_duplicate_registration_witness :
    ∃ m, Router.add_method_handler (fun _ => 7)
      { methods := [{ sig := "add()uint64" }],
        method_sig_to_selector := [("add()uint64", 7)],
        method_selector_to_sig := [(7, "add()uint64")],
        conditions_n_branches := [{ walk_in_sig := "add()uint64", has_assert := true }] }
      { method_signature := "add()uint64" } none none =
      (.error (.tealInputError m),
        { methods := [{ sig := "add()uint64" }],
          method_sig_to_selector := [("add()uint64", 7)],
          method_selector_to_sig := [(7, "add()uint64")],
          conditions_n_branches := [{ walk_in_sig := "add()uint64", has_assert := true }] }) :=
  c9_duplicate_registration_rejected (fun _ => 7) _ _ none none rfl (by decide)
    (Or.inl (by decide))

/-- C10: whenever `Router.add_method_handler` raises one of its errors
(non-`ABIReturnSubroutine` handler, never-executable config, duplicate
signature, selector collision), the router state it leaves behind is
exactly the entry state: in the source every raise precedes every
mutation of `methods`, the two maps, and the approval AST, and the
embedding returns the state as of the raise point. -/
theorem c10_router_state_unchanged_on_error
    (checksum4 : String → Nat) (r r2 : Router) (mc : HandlerArg)
    (cfg : Option MethodConfig) (desc : Option String) (e : TealErr)
    (h : Router.add_method_handler checksum4 r mc cfg desc = (.error e, r2)) :
    r2 = r := by
  simp only [Router.add_method_handler] at h
  split at h
  · exact (Prod.ext_iff.mp h).2.symm
  · split at h
    · exact (Prod.ext_iff.mp h).2.symm
    · split at h
      · exact (Prod.ext_iff.mp h).2.symm
      · split at h
        · exact (Prod.ext_iff.mp h).2.symm
        · exact absurd (Prod.ext_iff.mp h).1 (by simp)

/-- Witness for C10 at a concrete erroring call (handler that is not an
`ABIReturnSubroutine`). -/
theorem c10_router_state_witness :
    (Router.add_method_handler (fun _ => 0) {}
      { is_abi_return_subroutine := false } none none).2 = ({} : Router) :=
  c10_router_state_unchanged_on_error (fun _ => 0) {} _
    { is_abi_return_subroutine := false } none none
    (.tealInputError "for adding method handler, must be ABIReturnSubroutine") rfl

end PyTeal
